import Mathlib

/-!
# Buildkite CloudWatch metrics publisher: the `collect-metrics` function

A shallow embedding of `functions/collect-metrics/main.go`: the four-counter
tally `Counts`, the accumulator `Result`, the aggregation loop of
`getBuildStats`, `extractMetricData`, and `chunkMetricData`, followed by the
properties proved about them.

Conventions of the embedding.

* Go's `int` is the 64-bit two's-complement integer of the platform the
  function is deployed on; it is an `Int` here and every `++` / `+` on it goes
  through `wrapInt`, so overflow wraps exactly as in Go.
* Go's `map[string]V` is a duplicate-free association list `GoMap V`; reading an
  absent key yields the zero value. The order in which `range` visits the keys
  of a map is not fixed by Go, so every `range` over a map takes a `RangeOrder`
  (an arbitrary rearrangement of the key list) as an explicit argument.
* The HTTP fetch `buildkiteBuilds` is an external collaborator and is passed to
  `getBuildStats` as a function; so is the submission `putMetricData`, passed
  to `handler`, which also returns the log of the calls made to the two.
-/

namespace CollectMetrics

/-! ## Machine integers -/

/-- Smallest value of Go's `int` (64 bit). -/
def intMin : Int := -9223372036854775808

/-- Largest value of Go's `int` (64 bit). -/
def intMax : Int := 9223372036854775807

/-- Two's-complement wrap-around of an integer into the range of Go's `int`. -/
def wrapInt (x : Int) : Int := (x + 9223372036854775808) % 18446744073709551616 - 9223372036854775808

/-- Go's `x++` on an `int`. -/
def incr (x : Int) : Int := wrapInt (x + 1)

/-! ## The `buildkite` package -/

/-- Modelled from the spec: the type `buildkite.Job` (package
`functions/collect-metrics/buildkite`, not among the sources). A job has a
state and an optional explicit queue attribute. -/
structure Job where
  State : String
  queue : Option String
deriving DecidableEq, Repr

/-- Modelled from the spec: the method `buildkite.Job.Queue` (package
`functions/collect-metrics/buildkite`, not among the sources). The effective
queue is the job's explicit queue, and the literal `"default"` when the job
carries none. -/
def Job.Queue (j : Job) : String :=
  match j.queue with
  | some q => q
  | none => "default"

/-- Modelled from the spec: the type `buildkite.Build` (package
`functions/collect-metrics/buildkite`, not among the sources). A build has a
state and an ordered sequence of jobs. -/
structure Build where
  State : String
  Jobs : List Job
deriving DecidableEq, Repr

/-! ## Configuration and counters -/

/-- The Go struct `Config`. -/
structure Config where
  BuildkiteOrgSlug : String
  BuildkiteApiAccessToken : String
  Queue : String
deriving DecidableEq, Repr

/-- The Go struct `Counts`. -/
structure Counts where
  RunningBuilds : Int
  RunningJobs : Int
  ScheduledBuilds : Int
  ScheduledJobs : Int
deriving DecidableEq, Repr

/-- The zero value of `Counts`. -/
def Counts.zero : Counts := ⟨0, 0, 0, 0⟩

instance : Inhabited Counts := ⟨Counts.zero⟩

/-- The Go method `Counts.addBuild`: a `switch` on the build's state. -/
def Counts.addBuild (c : Counts) (build : Build) : Counts :=
  if build.State = "running" then { c with RunningBuilds := incr c.RunningBuilds }
  else if build.State = "scheduled" then { c with ScheduledBuilds := incr c.ScheduledBuilds }
  else c

/-- The Go method `Counts.addJob`: a `switch` on the job's state. -/
def Counts.addJob (c : Counts) (job : Job) : Counts :=
  if job.State = "running" then { c with RunningJobs := incr c.RunningJobs }
  else if job.State = "scheduled" then { c with ScheduledJobs := incr c.ScheduledJobs }
  else c

/-! ## Go maps -/

/-- Assignment `m[k] = v` on the entry list of a map: an existing entry is
overwritten in place, a new key is appended. -/
def setEntries {V : Type} (k : String) (v : V) : List (String × V) → List (String × V)
  | [] => [(k, v)]
  | e :: es => if e.1 = k then (k, v) :: es else e :: setEntries k v es

/-- Read `m[k]` on the entry list of a map: the zero value when `k` is absent. -/
def getEntries {V : Type} [Inhabited V] (k : String) : List (String × V) → V
  | [] => default
  | e :: es => if e.1 = k then e.2 else getEntries k es

/-- A Go `map[string]V`: an association list without repeated keys. -/
structure GoMap (V : Type) where
  entries : List (String × V)
  nodup : (entries.map Prod.fst).Nodup

namespace GoMap

variable {V : Type}

/-- The empty map `map[string]V{}`. -/
def empty : GoMap V := ⟨[], List.nodup_nil⟩

/-- The keys of the map, each once. -/
def keys (m : GoMap V) : List String := m.entries.map Prod.fst

/-- Read `m[k]`: the zero value of `V` when the key is absent. -/
def get [Inhabited V] (m : GoMap V) (k : String) : V := getEntries k m.entries

/-- Assignment `m[k] = v`. -/
def set (m : GoMap V) (k : String) (v : V) : GoMap V :=
  ⟨setEntries k v m.entries, by
    have hkeys : ∀ es : List (String × V), (setEntries k v es).map Prod.fst =
        if k ∈ es.map Prod.fst then es.map Prod.fst else es.map Prod.fst ++ [k] := by
      intro es
      induction es with
      | nil => simp [setEntries]
      | cons e es ih =>
        by_cases h : e.1 = k
        · simp [setEntries, h]
        · have h2 : ¬ k = e.1 := fun h3 => h h3.symm
          simp only [setEntries, h, if_false, List.map_cons, ih, List.mem_cons, h2, false_or]
          split <;> simp
    rw [hkeys]
    split
    · exact m.nodup
    · rename_i hk
      exact List.Nodup.append m.nodup (List.nodup_singleton k) (by simpa using hk)⟩

end GoMap

/-- An iteration order for `range` over a Go map: some rearrangement of the
keys, each visited exactly once. Go leaves the order unspecified. -/
structure RangeOrder where
  order : List String → List String
  perm : ∀ ks, (order ks).Perm ks

/-- The iteration order that visits the keys in the order of insertion. -/
def RangeOrder.insertion : RangeOrder := ⟨fun ks => ks, fun ks => List.Perm.refl ks⟩

/-- The iteration order that visits the keys in the reverse order of insertion. -/
def RangeOrder.reversed : RangeOrder := ⟨fun ks => ks.reverse, fun ks => List.reverse_perm ks⟩

/-! ## The accumulator -/

/-- The Go struct `Result`: the embedded global `Counts` and the per-queue
map. `Queues` is an allocated map, as in the only place the source builds a
`Result` (`Queues: map[string]Counts{}`). -/
structure Result where
  Counts : Counts
  Queues : GoMap CollectMetrics.Counts

/-- The `Result` built by the handler: zero counters and an empty map. -/
def Result.fresh : Result := ⟨Counts.zero, GoMap.empty⟩

/-- The body of the inner loop of `getBuildStats` for one job. The state is the
accumulator together with the per-build map `buildQueues`. -/
def jobStep (conf : Config) (st : Result × GoMap Int) (job : Job) : Result × GoMap Int :=
  let res : Result := { st.1 with Counts := st.1.Counts.addJob job }
  let queue := job.Queue
  if queue = "default" ∨ queue = conf.Queue then
    ({ res with Queues := res.Queues.set queue ((res.Queues.get queue).addJob job) },
      st.2.set queue (incr (st.2.get queue)))
  else (res, st.2)

/-- The body of the loop `for queue := range buildQueues` for one key. -/
def queueStep (build : Build) (res : Result) (queue : String) : Result :=
  { res with Queues := res.Queues.set queue ((res.Queues.get queue).addBuild build) }

/-- The body of the outer loop of `getBuildStats` for one build; `σ` is the
order in which `range buildQueues` visits the queues this build touched. -/
def processBuild (σ : RangeOrder) (conf : Config) (res : Result) (build : Build) : Result :=
  let res1 : Result := { res with Counts := res.Counts.addBuild build }
  let st := build.Jobs.foldl (jobStep conf) (res1, GoMap.empty)
  (σ.order st.2.keys).foldl (queueStep build) st.1

/-- The aggregation loop of `getBuildStats` (`for _, build := range builds`);
`ρ n` is the iteration order used for the `buildQueues` map of the `n`-th
build. -/
def aggregate (ρ : Nat → RangeOrder) (conf : Config) : Result → List Build → Result
  | res, [] => res
  | res, build :: builds =>
    aggregate (fun n => ρ (n + 1)) conf (processBuild (ρ 0) conf res build) builds

/-- An error value returned by the external fetch. -/
abbrev Error := String

/-- The signature of the external fetch `buildkiteBuilds(orgSlug, apiKey,
stateFilter)`: the HTTP request and the decoding of its answer are outside the
embedding, only what the call returns is used. -/
abbrev Fetch := String → String → String → Except Error (List Build)

/-- The Go method `Result.getBuildStats`. The pair returned is the `Result`
after the call (the receiver is a pointer) and the error returned, `none` for
`nil`. -/
def getBuildStats (buildkiteBuilds : Fetch) (ρ : Nat → RangeOrder) (res : Result) (conf : Config)
    (stateFilter : String) : Result × Option Error :=
  match buildkiteBuilds conf.BuildkiteOrgSlug conf.BuildkiteApiAccessToken stateFilter with
  | .error err => (res, some err)
  | .ok builds =>
    let res1 := aggregate ρ conf res builds
    let res2 : Result := { res1 with Queues := res1.Queues.set "default" (res1.Queues.get "default") }
    let res3 : Result := { res2 with Queues := res2.Queues.set conf.Queue (res2.Queues.get conf.Queue) }
    (res3, none)

/-! ## Metric data -/

/-- The CloudWatch type `Dimension`: a name and a value. -/
structure Dimension where
  Name : String
  Value : String
deriving DecidableEq, Repr

/-- The number of binary digits of `n`, for `n` below `2 ^ fuel`. -/
def bitLength : Nat → Nat → Nat
  | 0, _ => 0
  | fuel + 1, n => if n = 0 then 0 else bitLength fuel (n / 2) + 1

/-- A natural number below `2 ^ 64` rounded to 53 significant binary digits,
the precision of a `float64`, to the nearest such number and to the even one
on a tie: the low `shift` digits are dropped and the rest goes up when the
dropped part is more than half a unit, or exactly half with an odd rest. -/
def roundNat53 (n : Nat) : Nat :=
  let shift := bitLength 64 n - 53
  let q := n / 2 ^ shift
  let r := n % 2 ^ shift
  if 2 * r > 2 ^ shift ∨ (2 * r = 2 ^ shift ∧ q % 2 = 1) then (q + 1) * 2 ^ shift
  else q * 2 ^ shift

/-- A Go `float64` that holds a whole number, given by that number: the only
`float64` values the source builds are conversions of an `int`, and those are
whole. -/
structure Float64 where
  value : Int
deriving DecidableEq, Repr

/-- The CloudWatch type `MetricDatum`, with the four fields the source sets. -/
structure MetricDatum where
  MetricName : String
  Dimensions : List Dimension
  Value : Float64
  Unit : String

/-- Go's conversion `float64(x)` of an `int`: the nearest `float64`, ties to
even, of the same sign as `x`. -/
def float64 (x : Int) : Float64 :=
  ⟨if 0 ≤ x then (roundNat53 x.natAbs : Int) else -(roundNat53 x.natAbs : Int)⟩

/-- The Go method `Counts.asMetrics`; a `nil` slice of dimensions is the empty
list. -/
def Counts.asMetrics (c : Counts) (dimensions : List Dimension) : List MetricDatum :=
  [ { MetricName := "RunningBuildsCount", Dimensions := dimensions,
      Value := float64 c.RunningBuilds, Unit := "Count" },
    { MetricName := "ScheduledBuildsCount", Dimensions := dimensions,
      Value := float64 c.ScheduledBuilds, Unit := "Count" },
    { MetricName := "RunningJobsCount", Dimensions := dimensions,
      Value := float64 c.RunningJobs, Unit := "Count" },
    { MetricName := "ScheduledJobsCount", Dimensions := dimensions,
      Value := float64 c.ScheduledJobs, Unit := "Count" } ]

/-- The Go method `Result.extractMetricData`; `σ` is the order in which
`range r.Queues` visits the queues. -/
def Result.extractMetricData (σ : RangeOrder) (r : Result) : List MetricDatum :=
  (σ.order r.Queues.keys).foldl
    (fun data name => data ++ (r.Queues.get name).asMetrics [⟨"Queue", name⟩])
    ([] ++ r.Counts.asMetrics [])

/-! ## Chunking -/

/-- How the run of a Go function ended. -/
inductive Run (α : Type) where
  | returned (a : α)
  | panicked
  | outOfFuel

/-- The slice expression `data[i:end]`: Go panics unless `0 ≤ i ≤ end` and
`end` is within the slice (the capacity is taken to be the length). -/
def slice {α : Type} (data : List α) (i stop : Int) : Option (List α) :=
  if 0 ≤ i ∧ i ≤ stop ∧ stop ≤ data.length then
    some ((data.drop i.toNat).take (stop - i).toNat)
  else none

/-- The loop of `chunkMetricData`, `for i := 0; i < len(data); i += size`,
from loop variable `i` with the chunks collected so far; one unit of fuel is
spent per evaluation of the loop condition. -/
def chunkLoop {α : Type} (size : Int) (data : List α) :
    Nat → Int → List (List α) → Run (List (List α))
  | 0, _, _ => Run.outOfFuel
  | fuel + 1, i, chunks =>
    if i < data.length then
      let stop := wrapInt (i + size)
      let stop := if stop > data.length then (data.length : Int) else stop
      match slice data i stop with
      | none => Run.panicked
      | some chunk => chunkLoop size data fuel (wrapInt (i + size)) (chunks ++ [chunk])
    else Run.returned chunks

/-- The Go function `chunkMetricData`, run with the given fuel. -/
def chunkMetricData {α : Type} (fuel : Nat) (size : Int) (data : List α) : Run (List (List α)) :=
  chunkLoop size data fuel 0 []

/-! ## The handler: validation and the two passes -/

/-- The three checks the handler makes on the decoded configuration, in the
order of the source; `none` when the configuration is accepted. -/
def validate (conf : Config) : Option Error :=
  if conf.BuildkiteApiAccessToken = "" then some "No BuildkiteApiAccessToken provided"
  else if conf.BuildkiteOrgSlug = "" then some "No BuildkiteOrgSlug provided"
  else if conf.Queue = "" then some "No Queue provided"
  else none

/-- The two calls of `getBuildStats` the handler makes on one shared, freshly
built `Result`: the `"running"` pass and, when that returned no error, the
`"scheduled"` pass. `ρ₁` and `ρ₂` are the iteration orders of the two passes. -/
def collect (buildkiteBuilds : Fetch) (ρ₁ ρ₂ : Nat → RangeOrder) (conf : Config) :
    Result × Option Error :=
  match getBuildStats buildkiteBuilds ρ₁ Result.fresh conf "running" with
  | (res, some err) => (res, some err)
  | (res, none) => getBuildStats buildkiteBuilds ρ₂ res conf "scheduled"

/-- The calls the handler has made to its two external collaborators: the
state filter of each call of `buildkiteBuilds` and the batch of each call of
`putMetricData`, in the order of the calls. -/
structure Effects where
  fetched : List String
  submitted : List (List MetricDatum)

/-- The signature of the external submission `putMetricData(svc, data)`: the
error returned (`none` for `nil`) by the call number `n` of the invocation. -/
abbrev Put := Nat → List MetricDatum → Option Error

/-- The Go method `Result.getBuildStats` together with the log of the calls:
the method calls `buildkiteBuilds` exactly once, before anything else,
whatever the call returns. -/
def getBuildStatsLogged (buildkiteBuilds : Fetch) (ρ : Nat → RangeOrder) (res : Result)
    (conf : Config) (stateFilter : String) (eff : Effects) : (Result × Option Error) × Effects :=
  (getBuildStats buildkiteBuilds ρ res conf stateFilter,
    { eff with fetched := eff.fetched ++ [stateFilter] })

/-- The loop `for _, chunk := range chunkMetricData(10, metrics)` of the
handler: every chunk is submitted in turn and the first error ends the loop.
The result is the error returned and the log after the loop. -/
def submitChunks (putMetricData : Put) : List (List MetricDatum) → Effects →
    Option Error × Effects
  | [], eff => (none, eff)
  | chunk :: chunks, eff =>
    match putMetricData eff.submitted.length chunk with
    | some err => (some err, { eff with submitted := eff.submitted ++ [chunk] })
    | none => submitChunks putMetricData chunks { eff with submitted := eff.submitted ++ [chunk] }

/-- The function passed to `apex.HandleFunc` in `main`. `event` is what
`json.Unmarshal(event, &conf)` gave; `fuel` bounds the loop of
`chunkMetricData`. The result is how the run ended, with the pair returned
(the `Result` or `nil`, and the error or `nil`), and the calls made to the
external collaborators. -/
def handler (buildkiteBuilds : Fetch) (putMetricData : Put) (ρ₁ ρ₂ : Nat → RangeOrder)
    (σ : RangeOrder) (fuel : Nat) (event : Except Error Config) :
    Run (Option Result × Option Error) × Effects :=
  match event with
  | Except.error err => (Run.returned (none, some err), ⟨[], []⟩)
  | Except.ok conf =>
    match validate conf with
    | some err => (Run.returned (none, some err), ⟨[], []⟩)
    | none =>
      match getBuildStatsLogged buildkiteBuilds ρ₁ Result.fresh conf "running" ⟨[], []⟩ with
      | ((_, some err), eff) => (Run.returned (none, some err), eff)
      | ((res, none), eff) =>
        match getBuildStatsLogged buildkiteBuilds ρ₂ res conf "scheduled" eff with
        | ((_, some err), eff) => (Run.returned (none, some err), eff)
        | ((res, none), eff) =>
          match chunkMetricData fuel 10 (res.extractMetricData σ) with
          | Run.returned chunks =>
            match submitChunks putMetricData chunks eff with
            | (some err, eff) => (Run.returned (none, some err), eff)
            | (none, eff) => (Run.returned (some res, none), eff)
          | Run.panicked => (Run.panicked, eff)
          | Run.outOfFuel => (Run.outOfFuel, eff)

/-- Counter by counter, `a` is at most `b`. -/
def Counts.le (a b : Counts) : Prop :=
  a.RunningBuilds ≤ b.RunningBuilds ∧ a.RunningJobs ≤ b.RunningJobs ∧
    a.ScheduledBuilds ≤ b.ScheduledBuilds ∧ a.ScheduledJobs ≤ b.ScheduledJobs

/-- The jobs of all the builds of a list, in order. -/
def allJobs (builds : List Build) : List Job := builds.flatMap (fun b => b.Jobs)

/-! ## Sample inputs -/

/-- A running build with two jobs on `"ci"`, one on the default queue and one
on a queue that is not tracked. -/
def sampleBuild : Build :=
  ⟨"running", [⟨"running", some "ci"⟩, ⟨"scheduled", some "ci"⟩, ⟨"scheduled", none⟩,
    ⟨"running", some "deploy"⟩]⟩

/-- A scheduled build whose jobs are all on a queue that is not tracked. -/
def sampleOtherBuild : Build :=
  ⟨"scheduled", [⟨"scheduled", some "deploy"⟩, ⟨"running", some "deploy"⟩]⟩

/-- A configuration whose queue is `"ci"`. -/
def sampleConf : Config := ⟨"acme", "token", "ci"⟩

/-- A fetch that answers every request with the two sample builds. -/
def sampleFetch : Fetch := fun _ _ _ => Except.ok [sampleBuild, sampleOtherBuild]

/-- A fetch that finds no build at all. -/
def emptyFetch : Fetch := fun _ _ _ => Except.ok []

/-- A fetch that fails on every request. -/
def failingFetch : Fetch := fun _ _ _ => Except.error "Failed to request builds"

/-- A fetch that answers the `"running"` request with the sample builds and
fails on every other request. -/
def scheduledFailingFetch : Fetch := fun _ _ stateFilter =>
  if stateFilter = "running" then Except.ok [sampleBuild, sampleOtherBuild]
  else Except.error "Failed to request builds"

/-- A submission that always succeeds. -/
def samplePut : Put := fun _ _ => none

/-- A build and a job in states the counters do not know. -/
def samplePassedBuild : Build :=
  ⟨"passed", [⟨"passed", some "ci"⟩, ⟨"canceled", none⟩, ⟨"blocked", some "deploy"⟩]⟩

/-- The build of the end-to-end scenario: running, with one running job on
`"ci"`. -/
def scenarioBuild : Build := ⟨"running", [⟨"running", some "ci"⟩]⟩

/-- A `Result` in the middle of a run, whose global `ScheduledBuilds` is the
largest `int`. -/
def crowdedResult : Result := ⟨⟨5, 0, intMax, 0⟩, GoMap.empty⟩

/-! ## Machine integers: no overflow below the maximum -/

theorem incr_eq (x : Int) (h1 : intMin ≤ x) (h2 : x < intMax) : incr x = x + 1 := by
  unfold incr wrapInt
  unfold intMin at h1
  unfold intMax at h2
  omega

/-- At the largest `int` the increment wraps around to the smallest. -/
theorem incr_intMax : incr intMax = intMin := by
  decide

/-! ## Go maps: reading after writing, and the keys after writing -/

theorem keys_setEntries {V : Type} (k : String) (v : V) (es : List (String × V)) :
    (setEntries k v es).map Prod.fst =
      if k ∈ es.map Prod.fst then es.map Prod.fst else es.map Prod.fst ++ [k] := by
  induction es with
  | nil => simp [setEntries]
  | cons e es ih =>
    by_cases h : e.1 = k
    · simp [setEntries, h]
    · have h2 : ¬ k = e.1 := fun h3 => h h3.symm
      simp only [setEntries, h, if_false, List.map_cons, ih, List.mem_cons, h2, false_or]
      split <;> simp

theorem getEntries_setEntries {V : Type} [Inhabited V] (k k2 : String) (v : V)
    (es : List (String × V)) :
    getEntries k2 (setEntries k v es) = if k2 = k then v else getEntries k2 es := by
  induction es with
  | nil =>
    by_cases h : k2 = k
    · simp [setEntries, getEntries, h]
    · have h2 : ¬ k = k2 := fun h3 => h h3.symm
      simp [setEntries, getEntries, h, h2]
  | cons e es ih =>
    by_cases h : e.1 = k
    · by_cases h2 : k2 = k
      · simp [setEntries, getEntries, h, h2]
      · have h3 : ¬ k = k2 := fun h4 => h2 h4.symm
        simp [setEntries, getEntries, h, h2, h3]
    · by_cases h2 : e.1 = k2
      · have h3 : ¬ k2 = k := fun h4 => h (h2.trans h4)
        simp [setEntries, getEntries, h, h2, h3]
      · simp [setEntries, getEntries, h, h2, ih]

theorem getEntries_of_not_mem {V : Type} [Inhabited V] (k : String) (es : List (String × V))
    (h : k ∉ es.map Prod.fst) : getEntries k es = default := by
  induction es with
  | nil => rfl
  | cons e es ih =>
    have h1 : ¬ e.1 = k := fun h2 => h (by simp [h2])
    have h3 : k ∉ es.map Prod.fst := fun h2 => h (by simp only [List.map_cons]; exact List.mem_cons_of_mem _ h2)
    simp [getEntries, h1, ih h3]

theorem GoMap.eq_of_entries {V : Type} (m1 m2 : GoMap V) (h : m1.entries = m2.entries) :
    m1 = m2 := by
  cases m1
  cases m2
  cases h
  rfl

theorem GoMap.get_set {V : Type} [Inhabited V] (m : GoMap V) (k k2 : String) (v : V) :
    (m.set k v).get k2 = if k2 = k then v else m.get k2 :=
  getEntries_setEntries k k2 v m.entries

theorem GoMap.get_of_not_mem {V : Type} [Inhabited V] (m : GoMap V) (k : String)
    (h : k ∉ m.keys) : m.get k = default :=
  getEntries_of_not_mem k m.entries h

theorem GoMap.mem_keys_set {V : Type} (m : GoMap V) (k k2 : String) (v : V) :
    k2 ∈ (m.set k v).keys ↔ k2 ∈ m.keys ∨ k2 = k := by
  unfold GoMap.keys GoMap.set
  simp only [keys_setEntries]
  split
  · rename_i hk
    constructor
    · intro h
      exact Or.inl h
    · rintro (h | h)
      · exact h
      · rw [h]
        exact hk
  · simp

theorem GoMap.length_keys_set {V : Type} (m : GoMap V) (k : String) (v : V) :
    (m.set k v).keys.length = if k ∈ m.keys then m.keys.length else m.keys.length + 1 := by
  unfold GoMap.keys GoMap.set
  simp only [keys_setEntries]
  split <;> simp

theorem GoMap.keys_empty {V : Type} : (GoMap.empty : GoMap V).keys = [] := rfl

/-! ## The counters touched by `addBuild` and `addJob` -/

theorem Counts.addJob_RunningBuilds (c : Counts) (j : Job) :
    (c.addJob j).RunningBuilds = c.RunningBuilds := by
  unfold Counts.addJob
  split
  · rfl
  · split <;> rfl

theorem Counts.addJob_ScheduledBuilds (c : Counts) (j : Job) :
    (c.addJob j).ScheduledBuilds = c.ScheduledBuilds := by
  unfold Counts.addJob
  split
  · rfl
  · split <;> rfl

theorem Counts.foldl_addJob_RunningBuilds (jobs : List Job) (c : Counts) :
    (jobs.foldl Counts.addJob c).RunningBuilds = c.RunningBuilds := by
  induction jobs generalizing c with
  | nil => rfl
  | cons j jobs ih => simp only [List.foldl_cons, ih, Counts.addJob_RunningBuilds]

theorem Counts.foldl_addJob_ScheduledBuilds (jobs : List Job) (c : Counts) :
    (jobs.foldl Counts.addJob c).ScheduledBuilds = c.ScheduledBuilds := by
  induction jobs generalizing c with
  | nil => rfl
  | cons j jobs ih => simp only [List.foldl_cons, ih, Counts.addJob_ScheduledBuilds]

theorem Counts.addBuild_RunningJobs (c : Counts) (b : Build) :
    (c.addBuild b).RunningJobs = c.RunningJobs := by
  unfold Counts.addBuild
  split
  · rfl
  · split <;> rfl

theorem Counts.addBuild_ScheduledJobs (c : Counts) (b : Build) :
    (c.addBuild b).ScheduledJobs = c.ScheduledJobs := by
  unfold Counts.addBuild
  split
  · rfl
  · split <;> rfl

theorem Counts.addBuild_RunningBuilds (c : Counts) (b : Build) :
    (c.addBuild b).RunningBuilds =
      if b.State = "running" then incr c.RunningBuilds else c.RunningBuilds := by
  unfold Counts.addBuild
  split
  · rfl
  · split <;> rfl

theorem Counts.addBuild_ScheduledBuilds (c : Counts) (b : Build) :
    (c.addBuild b).ScheduledBuilds =
      if b.State = "scheduled" then incr c.ScheduledBuilds else c.ScheduledBuilds := by
  unfold Counts.addBuild
  by_cases h1 : b.State = "running"
  · have h2 : ¬ b.State = "scheduled" := by
      rw [h1]
      decide
    simp [h1]
  · by_cases h2 : b.State = "scheduled"
    · simp [h2]
    · simp [h1, h2]

/-! ## The inner loop over the jobs of one build -/

theorem jobStep_Counts (conf : Config) (st : Result × GoMap Int) (j : Job) :
    (jobStep conf st j).1.Counts = st.1.Counts.addJob j := by
  unfold jobStep
  by_cases ht : j.Queue = "default" ∨ j.Queue = conf.Queue
  · simp [ht]
  · simp [ht]

theorem foldl_jobStep_Counts (conf : Config) (jobs : List Job) (st : Result × GoMap Int) :
    (jobs.foldl (jobStep conf) st).1.Counts = jobs.foldl Counts.addJob st.1.Counts := by
  induction jobs generalizing st with
  | nil => rfl
  | cons j jobs ih => simp only [List.foldl_cons, ih, jobStep_Counts]

theorem jobStep_get (conf : Config) (st : Result × GoMap Int) (j : Job) (q : String) :
    (jobStep conf st j).1.Queues.get q =
      if j.Queue = q ∧ (q = "default" ∨ q = conf.Queue) then (st.1.Queues.get q).addJob j
      else st.1.Queues.get q := by
  unfold jobStep
  by_cases ht : j.Queue = "default" ∨ j.Queue = conf.Queue
  · by_cases hq : j.Queue = q
    · subst hq
      simp [ht, GoMap.get_set]
    · have hq2 : ¬ q = j.Queue := fun h => hq h.symm
      simp [ht, hq, hq2, GoMap.get_set]
  · have h2 : ¬ (j.Queue = q ∧ (q = "default" ∨ q = conf.Queue)) := by
      rintro ⟨h3, h4⟩
      rw [h3] at ht
      exact ht h4
    simp [ht, h2]

theorem foldl_jobStep_get (conf : Config) (jobs : List Job) (st : Result × GoMap Int)
    (q : String) (hq : q = "default" ∨ q = conf.Queue) :
    (jobs.foldl (jobStep conf) st).1.Queues.get q =
      (jobs.filter (fun j => decide (j.Queue = q))).foldl Counts.addJob (st.1.Queues.get q) := by
  induction jobs generalizing st with
  | nil => rfl
  | cons j jobs ih =>
    simp only [List.foldl_cons, ih, jobStep_get]
    by_cases h : j.Queue = q
    · simp [h, hq, List.filter_cons]
    · simp [h, List.filter_cons]

theorem foldl_jobStep_get_other (conf : Config) (jobs : List Job) (st : Result × GoMap Int)
    (q : String) (hq : ¬ (q = "default" ∨ q = conf.Queue)) :
    (jobs.foldl (jobStep conf) st).1.Queues.get q = st.1.Queues.get q := by
  induction jobs generalizing st with
  | nil => rfl
  | cons j jobs ih => simp [List.foldl_cons, ih, jobStep_get, hq]

theorem jobStep_keys (conf : Config) (st : Result × GoMap Int) (j : Job) (k : String) :
    k ∈ (jobStep conf st j).1.Queues.keys ↔
      k ∈ st.1.Queues.keys ∨ ((k = "default" ∨ k = conf.Queue) ∧ j.Queue = k) := by
  unfold jobStep
  by_cases ht : j.Queue = "default" ∨ j.Queue = conf.Queue
  · simp only [ht, if_true, GoMap.mem_keys_set]
    constructor
    · rintro (h | h)
      · exact Or.inl h
      · refine Or.inr ⟨?_, h.symm⟩
        rw [h]
        exact ht
    · rintro (h | ⟨_, h⟩)
      · exact Or.inl h
      · exact Or.inr h.symm
  · simp only [ht, if_false]
    constructor
    · intro h
      exact Or.inl h
    · rintro (h | ⟨h1, h2⟩)
      · exact h
      · rw [h2] at ht
        exact absurd h1 ht

theorem jobStep_touched (conf : Config) (st : Result × GoMap Int) (j : Job) (k : String) :
    k ∈ (jobStep conf st j).2.keys ↔
      k ∈ st.2.keys ∨ ((k = "default" ∨ k = conf.Queue) ∧ j.Queue = k) := by
  unfold jobStep
  by_cases ht : j.Queue = "default" ∨ j.Queue = conf.Queue
  · simp only [ht, if_true, GoMap.mem_keys_set]
    constructor
    · rintro (h | h)
      · exact Or.inl h
      · refine Or.inr ⟨?_, h.symm⟩
        rw [h]
        exact ht
    · rintro (h | ⟨_, h⟩)
      · exact Or.inl h
      · exact Or.inr h.symm
  · simp only [ht, if_false]
    constructor
    · intro h
      exact Or.inl h
    · rintro (h | ⟨h1, h2⟩)
      · exact h
      · rw [h2] at ht
        exact absurd h1 ht

theorem foldl_jobStep_keys (conf : Config) (jobs : List Job) (st : Result × GoMap Int)
    (k : String) :
    k ∈ (jobs.foldl (jobStep conf) st).1.Queues.keys ↔
      k ∈ st.1.Queues.keys ∨ ((k = "default" ∨ k = conf.Queue) ∧ ∃ j ∈ jobs, j.Queue = k) := by
  induction jobs generalizing st with
  | nil => simp
  | cons j jobs ih =>
    simp only [List.foldl_cons, ih, jobStep_keys, List.mem_cons, exists_eq_or_imp]
    tauto

theorem foldl_jobStep_touched (conf : Config) (jobs : List Job) (st : Result × GoMap Int)
    (k : String) :
    k ∈ (jobs.foldl (jobStep conf) st).2.keys ↔
      k ∈ st.2.keys ∨ ((k = "default" ∨ k = conf.Queue) ∧ ∃ j ∈ jobs, j.Queue = k) := by
  induction jobs generalizing st with
  | nil => simp
  | cons j jobs ih =>
    simp only [List.foldl_cons, ih, jobStep_touched, List.mem_cons, exists_eq_or_imp]
    tauto

theorem foldl_jobStep_untracked (conf : Config) (jobs : List Job) (st : Result × GoMap Int)
    (h : ∀ j ∈ jobs, ¬ (j.Queue = "default" ∨ j.Queue = conf.Queue)) :
    (jobs.foldl (jobStep conf) st).1.Queues = st.1.Queues ∧
      (jobs.foldl (jobStep conf) st).2 = st.2 := by
  induction jobs generalizing st with
  | nil => exact ⟨rfl, rfl⟩
  | cons j jobs ih =>
    have hj : ¬ (j.Queue = "default" ∨ j.Queue = conf.Queue) := h j (List.mem_cons_self j jobs)
    have hrest : ∀ j2 ∈ jobs, ¬ (j2.Queue = "default" ∨ j2.Queue = conf.Queue) :=
      fun j2 hj2 => h j2 (List.mem_cons_of_mem j hj2)
    have hstep : (jobStep conf st j).1.Queues = st.1.Queues ∧ (jobStep conf st j).2 = st.2 := by
      unfold jobStep
      simp [hj]
    simp only [List.foldl_cons]
    rw [(ih (jobStep conf st j) hrest).1, (ih (jobStep conf st j) hrest).2]
    exact hstep

/-! ## The loop over the queues one build touched -/

theorem foldl_queueStep_Counts (build : Build) (ks : List String) (res : Result) :
    (ks.foldl (queueStep build) res).Counts = res.Counts := by
  induction ks generalizing res with
  | nil => rfl
  | cons k ks ih =>
    simp only [List.foldl_cons, ih]
    rfl

theorem foldl_queueStep_get (build : Build) (ks : List String) (res : Result) (q : String)
    (hnd : ks.Nodup) :
    (ks.foldl (queueStep build) res).Queues.get q =
      if q ∈ ks then (res.Queues.get q).addBuild build else res.Queues.get q := by
  induction ks generalizing res with
  | nil => simp
  | cons k ks ih =>
    have hk : k ∉ ks := (List.nodup_cons.mp hnd).1
    have hks : ks.Nodup := (List.nodup_cons.mp hnd).2
    simp only [List.foldl_cons, ih _ hks, List.mem_cons]
    unfold queueStep
    simp only [GoMap.get_set]
    by_cases h1 : q = k
    · subst h1
      simp [hk]
    · simp [h1]

theorem foldl_queueStep_keys (build : Build) (ks : List String) (res : Result) (k : String) :
    k ∈ (ks.foldl (queueStep build) res).Queues.keys ↔ k ∈ res.Queues.keys ∨ k ∈ ks := by
  induction ks generalizing res with
  | nil => simp
  | cons k2 ks ih =>
    simp only [List.foldl_cons, ih, List.mem_cons]
    unfold queueStep
    simp only [GoMap.mem_keys_set]
    tauto

theorem foldl_queueStep_nil (build : Build) (res : Result) :
    ([] : List String).foldl (queueStep build) res = res := rfl

/-! ## One build -/

theorem processBuild_Counts (σ : RangeOrder) (conf : Config) (res : Result) (b : Build) :
    (processBuild σ conf res b).Counts = b.Jobs.foldl Counts.addJob (res.Counts.addBuild b) := by
  unfold processBuild
  simp only [foldl_queueStep_Counts, foldl_jobStep_Counts]

theorem processBuild_get (σ : RangeOrder) (conf : Config) (res : Result) (b : Build)
    (q : String) :
    (processBuild σ conf res b).Queues.get q =
      if (q = "default" ∨ q = conf.Queue) ∧ ∃ j ∈ b.Jobs, j.Queue = q then
        ((b.Jobs.filter (fun j => decide (j.Queue = q))).foldl Counts.addJob
          (res.Queues.get q)).addBuild b
      else res.Queues.get q := by
  unfold processBuild
  have hnd : (σ.order (b.Jobs.foldl (jobStep conf)
      ({ res with Counts := res.Counts.addBuild b }, GoMap.empty)).2.keys).Nodup :=
    (σ.perm _).nodup_iff.mpr (GoMap.nodup _)
  simp only [foldl_queueStep_get _ _ _ _ hnd, (σ.perm _).mem_iff, foldl_jobStep_touched,
    GoMap.keys_empty, List.not_mem_nil, false_or]
  by_cases hq : q = "default" ∨ q = conf.Queue
  · simp only [foldl_jobStep_get _ _ _ _ hq]
    by_cases he : ∃ j ∈ b.Jobs, j.Queue = q
    · simp only [hq, he, and_self, if_true]
    · have hnil : b.Jobs.filter (fun j => decide (j.Queue = q)) = [] := by
        rw [List.filter_eq_nil_iff]
        intro j hj hjq
        exact he ⟨j, hj, of_decide_eq_true hjq⟩
      simp only [he, and_false, if_false, hnil, List.foldl_nil]
  · simp only [hq, false_and, if_false]
    exact foldl_jobStep_get_other conf b.Jobs _ q hq

theorem processBuild_keys (σ : RangeOrder) (conf : Config) (res : Result) (b : Build)
    (k : String) :
    k ∈ (processBuild σ conf res b).Queues.keys ↔
      k ∈ res.Queues.keys ∨ ((k = "default" ∨ k = conf.Queue) ∧ ∃ j ∈ b.Jobs, j.Queue = k) := by
  unfold processBuild
  simp only [foldl_queueStep_keys, (σ.perm _).mem_iff, foldl_jobStep_touched, foldl_jobStep_keys,
    GoMap.keys_empty, List.not_mem_nil, false_or]
  tauto

theorem processBuild_untracked (σ : RangeOrder) (conf : Config) (res : Result) (b : Build)
    (h : ∀ j ∈ b.Jobs, ¬ (j.Queue = "default" ∨ j.Queue = conf.Queue)) :
    (processBuild σ conf res b).Queues = res.Queues := by
  unfold processBuild
  have h2 := foldl_jobStep_untracked conf b.Jobs
    ({ res with Counts := res.Counts.addBuild b }, GoMap.empty) h
  have h3 : σ.order (b.Jobs.foldl (jobStep conf)
      ({ res with Counts := res.Counts.addBuild b }, GoMap.empty)).2.keys = [] := by
    rw [h2.2]
    exact List.Perm.eq_nil (σ.perm _)
  simp only [h3, List.foldl_nil]
  exact h2.1

theorem processBuild_get_RunningBuilds (σ : RangeOrder) (conf : Config) (res : Result)
    (b : Build) (q : String) :
    ((processBuild σ conf res b).Queues.get q).RunningBuilds =
      if b.State = "running" ∧ (q = "default" ∨ q = conf.Queue) ∧ ∃ j ∈ b.Jobs, j.Queue = q then
        incr (res.Queues.get q).RunningBuilds
      else (res.Queues.get q).RunningBuilds := by
  rw [processBuild_get]
  by_cases ht : (q = "default" ∨ q = conf.Queue) ∧ ∃ j ∈ b.Jobs, j.Queue = q
  · by_cases hs : b.State = "running"
    · simp only [ht, hs, if_true, and_self, Counts.addBuild_RunningBuilds,
        Counts.foldl_addJob_RunningBuilds]
    · simp only [ht, hs, if_true, if_false, and_true, false_and, Counts.addBuild_RunningBuilds,
        Counts.foldl_addJob_RunningBuilds]
  · have h2 : ¬ (b.State = "running" ∧ (q = "default" ∨ q = conf.Queue) ∧
        ∃ j ∈ b.Jobs, j.Queue = q) := fun h3 => ht h3.2
    rw [if_neg ht, if_neg h2]

theorem processBuild_get_ScheduledBuilds (σ : RangeOrder) (conf : Config) (res : Result)
    (b : Build) (q : String) :
    ((processBuild σ conf res b).Queues.get q).ScheduledBuilds =
      if b.State = "scheduled" ∧ (q = "default" ∨ q = conf.Queue) ∧ ∃ j ∈ b.Jobs, j.Queue = q then
        incr (res.Queues.get q).ScheduledBuilds
      else (res.Queues.get q).ScheduledBuilds := by
  rw [processBuild_get]
  by_cases ht : (q = "default" ∨ q = conf.Queue) ∧ ∃ j ∈ b.Jobs, j.Queue = q
  · by_cases hs : b.State = "scheduled"
    · simp only [ht, hs, if_true, and_self, Counts.addBuild_ScheduledBuilds,
        Counts.foldl_addJob_ScheduledBuilds]
    · simp only [ht, hs, if_true, if_false, and_true, false_and, Counts.addBuild_ScheduledBuilds,
        Counts.foldl_addJob_ScheduledBuilds]
  · have h2 : ¬ (b.State = "scheduled" ∧ (q = "default" ∨ q = conf.Queue) ∧
        ∃ j ∈ b.Jobs, j.Queue = q) := fun h3 => ht h3.2
    rw [if_neg ht, if_neg h2]

/-! ## The loop over the builds -/

theorem sum_map_indicator {α : Type} (p : α → Bool) (l : List α) :
    (l.map (fun a => if p a = true then 1 else 0)).sum = l.countP p := by
  induction l with
  | nil => rfl
  | cons a l ih =>
    by_cases h : p a = true
    · simp [List.countP_cons, h, ih]
      omega
    · simp [List.countP_cons, h, ih]

/-- A counter `f` of the accumulator that every build `b` advances by `w b`
(as long as it does not overflow) is advanced by the loop by the sum of the
`w b`. -/
theorem aggregate_counter (conf : Config) (f : Result → Int) (w : Build → Nat)
    (hstep : ∀ (σ : RangeOrder) (res : Result) (b : Build), intMin ≤ f res →
      f res + w b ≤ intMax → f (processBuild σ conf res b) = f res + w b)
    (ρ : Nat → RangeOrder) (res : Result) (builds : List Build)
    (h0 : intMin ≤ f res) (h1 : f res + (builds.map w).sum ≤ intMax) :
    f (aggregate ρ conf res builds) = f res + (builds.map w).sum := by
  induction builds generalizing res ρ with
  | nil => simp [aggregate]
  | cons b bs ih =>
    simp only [List.map_cons, List.sum_cons, Nat.cast_add] at h1 ⊢
    have hs := hstep (ρ 0) res b h0 (by omega)
    unfold aggregate
    rw [ih (fun n => ρ (n + 1)) (processBuild (ρ 0) conf res b) (by omega) (by omega), hs]
    omega

theorem aggregate_keys (ρ : Nat → RangeOrder) (conf : Config) (res : Result)
    (builds : List Build) (k : String) :
    k ∈ (aggregate ρ conf res builds).Queues.keys ↔
      k ∈ res.Queues.keys ∨
        ((k = "default" ∨ k = conf.Queue) ∧ ∃ b ∈ builds, ∃ j ∈ b.Jobs, j.Queue = k) := by
  induction builds generalizing res ρ with
  | nil => simp [aggregate]
  | cons b bs ih =>
    unfold aggregate
    simp only [ih, processBuild_keys, List.mem_cons, exists_eq_or_imp]
    have key : ∀ (A B C D : Prop), ((A ∨ (C ∧ B)) ∨ (C ∧ D)) ↔ (A ∨ (C ∧ (B ∨ D))) := by
      intro A B C D
      tauto
    exact key _ _ _ _

theorem aggregate_get_untouched (ρ : Nat → RangeOrder) (conf : Config) (res : Result)
    (builds : List Build) (q : String) (h : ∀ b ∈ builds, ∀ j ∈ b.Jobs, j.Queue ≠ q) :
    (aggregate ρ conf res builds).Queues.get q = res.Queues.get q := by
  induction builds generalizing res ρ with
  | nil => simp [aggregate]
  | cons b bs ih =>
    unfold aggregate
    rw [ih _ _ (fun b2 hb2 => h b2 (List.mem_cons_of_mem b hb2)), processBuild_get]
    have h2 : ¬ ((q = "default" ∨ q = conf.Queue) ∧ ∃ j ∈ b.Jobs, j.Queue = q) := by
      rintro ⟨_, j, hj, hjq⟩
      exact h b (List.mem_cons_self b bs) j hj hjq
    simp only [h2, if_false]

theorem Counts.addJob_RunningJobs (c : Counts) (j : Job) :
    (c.addJob j).RunningJobs =
      if j.State = "running" then incr c.RunningJobs else c.RunningJobs := by
  unfold Counts.addJob
  split
  · rfl
  · split <;> rfl

theorem Counts.addJob_ScheduledJobs (c : Counts) (j : Job) :
    (c.addJob j).ScheduledJobs =
      if j.State = "scheduled" then incr c.ScheduledJobs else c.ScheduledJobs := by
  unfold Counts.addJob
  by_cases h1 : j.State = "running"
  · have h2 : ¬ j.State = "scheduled" := by
      rw [h1]
      decide
    simp [h1]
  · by_cases h2 : j.State = "scheduled"
    · simp [h2]
    · simp [h1, h2]

theorem Counts.foldl_addJob_RunningJobs (jobs : List Job) (c : Counts)
    (h0 : intMin ≤ c.RunningJobs)
    (h1 : c.RunningJobs + jobs.countP (fun j => decide (j.State = "running")) ≤ intMax) :
    (jobs.foldl Counts.addJob c).RunningJobs =
      c.RunningJobs + jobs.countP (fun j => decide (j.State = "running")) := by
  induction jobs generalizing c with
  | nil => simp
  | cons j jobs ih =>
    by_cases hj : j.State = "running"
    · simp only [List.countP_cons, hj, decide_True, if_true, Nat.cast_add, Nat.cast_one,
        List.foldl_cons] at h1 ⊢
      have hstep : (c.addJob j).RunningJobs = c.RunningJobs + 1 := by
        rw [Counts.addJob_RunningJobs, if_pos hj]
        exact incr_eq _ h0 (by unfold intMax at h1 ⊢; omega)
      rw [ih (c.addJob j) (by omega) (by omega), hstep]
      omega
    · simp only [List.countP_cons, hj, decide_False, Bool.false_eq_true, if_false, add_zero,
        List.foldl_cons] at h1 ⊢
      have hstep : (c.addJob j).RunningJobs = c.RunningJobs := by
        rw [Counts.addJob_RunningJobs, if_neg hj]
      rw [ih (c.addJob j) (by omega) (by omega), hstep]

theorem Counts.foldl_addJob_ScheduledJobs (jobs : List Job) (c : Counts)
    (h0 : intMin ≤ c.ScheduledJobs)
    (h1 : c.ScheduledJobs + jobs.countP (fun j => decide (j.State = "scheduled")) ≤ intMax) :
    (jobs.foldl Counts.addJob c).ScheduledJobs =
      c.ScheduledJobs + jobs.countP (fun j => decide (j.State = "scheduled")) := by
  induction jobs generalizing c with
  | nil => simp
  | cons j jobs ih =>
    by_cases hj : j.State = "scheduled"
    · simp only [List.countP_cons, hj, decide_True, if_true, Nat.cast_add, Nat.cast_one,
        List.foldl_cons] at h1 ⊢
      have hstep : (c.addJob j).ScheduledJobs = c.ScheduledJobs + 1 := by
        rw [Counts.addJob_ScheduledJobs, if_pos hj]
        exact incr_eq _ h0 (by unfold intMax at h1 ⊢; omega)
      rw [ih (c.addJob j) (by omega) (by omega), hstep]
      omega
    · simp only [List.countP_cons, hj, decide_False, Bool.false_eq_true, if_false, add_zero,
        List.foldl_cons] at h1 ⊢
      have hstep : (c.addJob j).ScheduledJobs = c.ScheduledJobs := by
        rw [Counts.addJob_ScheduledJobs, if_neg hj]
      rw [ih (c.addJob j) (by omega) (by omega), hstep]

/-- The advance of a counter by one `++` when `p` holds is, below the maximum,
the addition of the indicator of `p`. -/
theorem ite_incr_eq (p : Prop) [Decidable p] (x : Int) (h0 : intMin ≤ x)
    (h1 : x + ((if decide p = true then 1 else 0 : Nat) : Int) ≤ intMax) :
    (if p then incr x else x) = x + ((if decide p = true then 1 else 0 : Nat) : Int) := by
  by_cases hp : p
  · simp only [hp, decide_True, if_true, Nat.cast_one] at h1 ⊢
    exact incr_eq x h0 (by unfold intMax at h1 ⊢; omega)
  · simp [hp]

/-! ## Global and per-queue build counts -/

/-- C1: over any list of builds, the aggregation loop of `getBuildStats` run
from a fresh `Result` leaves the global `RunningBuilds` equal to the number of
builds whose state is `"running"` and the global `ScheduledBuilds` equal to the
number of builds whose state is `"scheduled"`, whatever their jobs. The
hypothesis is the bound Go puts on the length of a slice. -/
theorem aggregate_global_build_counts (ρ : Nat → RangeOrder) (conf : Config)
    (builds : List Build) (hlen : (builds.length : Int) ≤ intMax) :
    (aggregate ρ conf Result.fresh builds).Counts.RunningBuilds =
        builds.countP (fun b => decide (b.State = "running")) ∧
      (aggregate ρ conf Result.fresh builds).Counts.ScheduledBuilds =
        builds.countP (fun b => decide (b.State = "scheduled")) := by
  have hr := List.countP_le_length (fun b : Build => decide (b.State = "running")) (l := builds)
  have hs := List.countP_le_length (fun b : Build => decide (b.State = "scheduled")) (l := builds)
  constructor
  · have h := aggregate_counter conf (fun r => r.Counts.RunningBuilds)
      (fun b => if decide (b.State = "running") = true then 1 else 0)
      (fun σ res b h0 h1 => by
        simp only [processBuild_Counts, Counts.foldl_addJob_RunningBuilds,
          Counts.addBuild_RunningBuilds]
        exact ite_incr_eq _ _ h0 h1)
      ρ Result.fresh builds (by decide)
      (by
        rw [sum_map_indicator]
        show (0 : Int) + _ ≤ intMax
        omega)
    rw [sum_map_indicator] at h
    simpa [Result.fresh, Counts.zero] using h
  · have h := aggregate_counter conf (fun r => r.Counts.ScheduledBuilds)
      (fun b => if decide (b.State = "scheduled") = true then 1 else 0)
      (fun σ res b h0 h1 => by
        simp only [processBuild_Counts, Counts.foldl_addJob_ScheduledBuilds,
          Counts.addBuild_ScheduledBuilds]
        exact ite_incr_eq _ _ h0 h1)
      ρ Result.fresh builds (by decide)
      (by
        rw [sum_map_indicator]
        show (0 : Int) + _ ≤ intMax
        omega)
    rw [sum_map_indicator] at h
    simpa [Result.fresh, Counts.zero] using h

/-- Witness of C1 on the two sample builds: one running, one scheduled. -/
theorem aggregate_global_build_counts_witness :
    (([sampleBuild, sampleOtherBuild].length : Nat) : Int) ≤ intMax ∧
      ((aggregate (fun _ => RangeOrder.reversed) sampleConf Result.fresh
          [sampleBuild, sampleOtherBuild]).Counts.RunningBuilds =
          [sampleBuild, sampleOtherBuild].countP (fun b => decide (b.State = "running")) ∧
        (aggregate (fun _ => RangeOrder.reversed) sampleConf Result.fresh
          [sampleBuild, sampleOtherBuild]).Counts.ScheduledBuilds =
          [sampleBuild, sampleOtherBuild].countP (fun b => decide (b.State = "scheduled"))) :=
  ⟨by decide, aggregate_global_build_counts (fun _ => RangeOrder.reversed) sampleConf
    [sampleBuild, sampleOtherBuild] (by decide)⟩

/-- C2: over any list of builds, after the aggregation loop of `getBuildStats`
run from a fresh `Result`, for each queue `q` among `"default"` and the
configured queue the per-queue `RunningBuilds` (resp. `ScheduledBuilds`) of `q`
is the number of builds in state `"running"` (resp. `"scheduled"`) that have at
least one job whose effective queue is `q`: such a build is counted once for
`q`, however many of its jobs are in `q`. The hypothesis on the length is the
bound Go puts on the length of a slice. -/
theorem aggregate_queue_build_counts (ρ : Nat → RangeOrder) (conf : Config)
    (builds : List Build) (q : String) (hq : q = "default" ∨ q = conf.Queue)
    (hlen : (builds.length : Int) ≤ intMax) :
    ((aggregate ρ conf Result.fresh builds).Queues.get q).RunningBuilds =
        builds.countP
          (fun b => decide (b.State = "running" ∧ ∃ j ∈ b.Jobs, j.Queue = q)) ∧
      ((aggregate ρ conf Result.fresh builds).Queues.get q).ScheduledBuilds =
        builds.countP
          (fun b => decide (b.State = "scheduled" ∧ ∃ j ∈ b.Jobs, j.Queue = q)) := by
  have hr := List.countP_le_length
    (fun b : Build => decide (b.State = "running" ∧ ∃ j ∈ b.Jobs, j.Queue = q)) (l := builds)
  have hs := List.countP_le_length
    (fun b : Build => decide (b.State = "scheduled" ∧ ∃ j ∈ b.Jobs, j.Queue = q)) (l := builds)
  constructor
  · have h := aggregate_counter conf (fun r => (r.Queues.get q).RunningBuilds)
      (fun b => if decide (b.State = "running" ∧ ∃ j ∈ b.Jobs, j.Queue = q) = true then 1 else 0)
      (fun σ res b h0 h1 => by
        simp only [processBuild_get_RunningBuilds, hq, true_and]
        exact ite_incr_eq _ _ h0 h1)
      ρ Result.fresh builds
      (by
        show intMin ≤ (0 : Int)
        decide)
      (by
        rw [sum_map_indicator]
        show (0 : Int) + _ ≤ intMax
        omega)
    rw [sum_map_indicator] at h
    have hz : (Result.fresh.Queues.get q).RunningBuilds = 0 := rfl
    simp only [hz, zero_add] at h
    exact h
  · have h := aggregate_counter conf (fun r => (r.Queues.get q).ScheduledBuilds)
      (fun b =>
        if decide (b.State = "scheduled" ∧ ∃ j ∈ b.Jobs, j.Queue = q) = true then 1 else 0)
      (fun σ res b h0 h1 => by
        simp only [processBuild_get_ScheduledBuilds, hq, true_and]
        exact ite_incr_eq _ _ h0 h1)
      ρ Result.fresh builds
      (by
        show intMin ≤ (0 : Int)
        decide)
      (by
        rw [sum_map_indicator]
        show (0 : Int) + _ ≤ intMax
        omega)
    rw [sum_map_indicator] at h
    have hz : (Result.fresh.Queues.get q).ScheduledBuilds = 0 := rfl
    simp only [hz, zero_add] at h
    exact h

/-- Witness of C2 on the queue `"ci"`: the sample running build has two jobs
there and is counted once. -/
theorem aggregate_queue_build_counts_witness :
    ("ci" = "default" ∨ "ci" = sampleConf.Queue) ∧
      (([sampleBuild, sampleOtherBuild].length : Nat) : Int) ≤ intMax ∧
      ((aggregate (fun _ => RangeOrder.insertion) sampleConf Result.fresh
          [sampleBuild, sampleOtherBuild]).Queues.get "ci").RunningBuilds = 1 :=
  ⟨by decide, by decide,
    (aggregate_queue_build_counts (fun _ => RangeOrder.insertion) sampleConf
      [sampleBuild, sampleOtherBuild] "ci" (by decide) (by decide)).1.trans (by decide)⟩

/-- C3: a build with at least one job on the default queue and at least one
job on the configured queue advances, when it is processed by `getBuildStats`,
the build counter matching its state by exactly one `++` in
`Queues["default"]` and by exactly one `++` in `Queues[conf.Queue]`, whatever
the number of its jobs; short of the largest `int` that is an increase by
exactly 1. With a configured queue different from `"default"` these are two
distinct entries of the map. -/
theorem processBuild_split_build (σ : RangeOrder) (conf : Config) (res : Result) (b : Build)
    (hd : ∃ j ∈ b.Jobs, j.Queue = "default") (hc : ∃ j ∈ b.Jobs, j.Queue = conf.Queue) :
    (b.State = "running" →
      (((processBuild σ conf res b).Queues.get "default").RunningBuilds =
          incr (res.Queues.get "default").RunningBuilds ∧
        ((processBuild σ conf res b).Queues.get conf.Queue).RunningBuilds =
          incr (res.Queues.get conf.Queue).RunningBuilds) ∧
      (∀ q, q = "default" ∨ q = conf.Queue →
        intMin ≤ (res.Queues.get q).RunningBuilds → (res.Queues.get q).RunningBuilds < intMax →
        ((processBuild σ conf res b).Queues.get q).RunningBuilds =
          (res.Queues.get q).RunningBuilds + 1)) ∧
    (b.State = "scheduled" →
      (((processBuild σ conf res b).Queues.get "default").ScheduledBuilds =
          incr (res.Queues.get "default").ScheduledBuilds ∧
        ((processBuild σ conf res b).Queues.get conf.Queue).ScheduledBuilds =
          incr (res.Queues.get conf.Queue).ScheduledBuilds) ∧
      (∀ q, q = "default" ∨ q = conf.Queue →
        intMin ≤ (res.Queues.get q).ScheduledBuilds →
        (res.Queues.get q).ScheduledBuilds < intMax →
        ((processBuild σ conf res b).Queues.get q).ScheduledBuilds =
          (res.Queues.get q).ScheduledBuilds + 1)) := by
  have hex : ∀ q, q = "default" ∨ q = conf.Queue → ∃ j ∈ b.Jobs, j.Queue = q := by
    rintro q (h | h)
    · rw [h]
      exact hd
    · rw [h]
      exact hc
  constructor
  · intro hs
    have key : ∀ q, q = "default" ∨ q = conf.Queue →
        ((processBuild σ conf res b).Queues.get q).RunningBuilds =
          incr (res.Queues.get q).RunningBuilds := by
      intro q hq
      rw [processBuild_get_RunningBuilds, if_pos ⟨hs, hq, hex q hq⟩]
    refine ⟨⟨key _ (Or.inl rfl), key _ (Or.inr rfl)⟩, ?_⟩
    intro q hq h0 h1
    rw [key q hq, incr_eq _ h0 h1]
  · intro hs
    have key : ∀ q, q = "default" ∨ q = conf.Queue →
        ((processBuild σ conf res b).Queues.get q).ScheduledBuilds =
          incr (res.Queues.get q).ScheduledBuilds := by
      intro q hq
      rw [processBuild_get_ScheduledBuilds, if_pos ⟨hs, hq, hex q hq⟩]
    refine ⟨⟨key _ (Or.inl rfl), key _ (Or.inr rfl)⟩, ?_⟩
    intro q hq h0 h1
    rw [key q hq, incr_eq _ h0 h1]

/-- Witness of C3: the sample build has jobs on `"default"` and on `"ci"`. -/
theorem processBuild_split_build_witness :
    sampleConf.Queue ≠ "default" ∧ (∃ j ∈ sampleBuild.Jobs, j.Queue = "default") ∧
      (∃ j ∈ sampleBuild.Jobs, j.Queue = sampleConf.Queue) ∧ sampleBuild.State = "running" ∧
      ((processBuild RangeOrder.reversed sampleConf Result.fresh sampleBuild).Queues.get
          "default").RunningBuilds = incr (Result.fresh.Queues.get "default").RunningBuilds ∧
      ((processBuild RangeOrder.reversed sampleConf Result.fresh sampleBuild).Queues.get
          sampleConf.Queue).RunningBuilds =
        incr (Result.fresh.Queues.get sampleConf.Queue).RunningBuilds :=
  ⟨by decide, by decide, by decide, by decide,
    ((processBuild_split_build RangeOrder.reversed sampleConf Result.fresh sampleBuild
      (by decide) (by decide)).1 (by decide)).1⟩

/-- C4: a build all of whose jobs have an effective queue that is neither
`"default"` nor the configured queue leaves, when it is processed by
`getBuildStats`, the whole per-queue map as it was (every value unchanged, no
key added, in particular none for the queues of its jobs), while the global
`Counts` receive the state of the build by one `addBuild` and each of its jobs
by one `addJob`: the build counter matching the state of the build advances by
one `++` and, short of overflow, the global job counters grow by the numbers
of running and of scheduled jobs of the build. -/
theorem processBuild_untracked_build (σ : RangeOrder) (conf : Config) (res : Result)
    (b : Build) (h : ∀ j ∈ b.Jobs, j.Queue ≠ "default" ∧ j.Queue ≠ conf.Queue) :
    (processBuild σ conf res b).Queues = res.Queues ∧
      (∀ q, (processBuild σ conf res b).Queues.get q = res.Queues.get q) ∧
      (∀ k, k ∈ (processBuild σ conf res b).Queues.keys ↔ k ∈ res.Queues.keys) ∧
      (processBuild σ conf res b).Counts = b.Jobs.foldl Counts.addJob (res.Counts.addBuild b) ∧
      (processBuild σ conf res b).Counts.RunningBuilds =
        (if b.State = "running" then incr res.Counts.RunningBuilds
          else res.Counts.RunningBuilds) ∧
      (processBuild σ conf res b).Counts.ScheduledBuilds =
        (if b.State = "scheduled" then incr res.Counts.ScheduledBuilds
          else res.Counts.ScheduledBuilds) ∧
      (intMin ≤ res.Counts.RunningJobs →
        res.Counts.RunningJobs + b.Jobs.countP (fun j => decide (j.State = "running")) ≤ intMax →
        (processBuild σ conf res b).Counts.RunningJobs =
          res.Counts.RunningJobs + b.Jobs.countP (fun j => decide (j.State = "running"))) ∧
      (intMin ≤ res.Counts.ScheduledJobs →
        res.Counts.ScheduledJobs + b.Jobs.countP (fun j => decide (j.State = "scheduled")) ≤
          intMax →
        (processBuild σ conf res b).Counts.ScheduledJobs =
          res.Counts.ScheduledJobs +
            b.Jobs.countP (fun j => decide (j.State = "scheduled"))) := by
  have hq : (processBuild σ conf res b).Queues = res.Queues :=
    processBuild_untracked σ conf res b (fun j hj hor =>
      hor.elim (fun h1 => (h j hj).1 h1) (fun h2 => (h j hj).2 h2))
  refine ⟨hq, ?_, ?_, processBuild_Counts σ conf res b, ?_, ?_, ?_, ?_⟩
  · intro q
    rw [hq]
  · intro k
    rw [hq]
  · rw [processBuild_Counts, Counts.foldl_addJob_RunningBuilds, Counts.addBuild_RunningBuilds]
  · rw [processBuild_Counts, Counts.foldl_addJob_ScheduledBuilds,
      Counts.addBuild_ScheduledBuilds]
  · intro h0 h1
    rw [processBuild_Counts, Counts.foldl_addJob_RunningJobs _ _
      (by rw [Counts.addBuild_RunningJobs]; exact h0)
      (by rw [Counts.addBuild_RunningJobs]; exact h1), Counts.addBuild_RunningJobs]
  · intro h0 h1
    rw [processBuild_Counts, Counts.foldl_addJob_ScheduledJobs _ _
      (by rw [Counts.addBuild_ScheduledJobs]; exact h0)
      (by rw [Counts.addBuild_ScheduledJobs]; exact h1), Counts.addBuild_ScheduledJobs]

/-- Witness of C4: the sample scheduled build has its two jobs on `"deploy"`. -/
theorem processBuild_untracked_build_witness :
    (∀ j ∈ sampleOtherBuild.Jobs, j.Queue ≠ "default" ∧ j.Queue ≠ sampleConf.Queue) ∧
      (processBuild RangeOrder.insertion sampleConf Result.fresh sampleOtherBuild).Queues =
        Result.fresh.Queues ∧
      (processBuild RangeOrder.insertion sampleConf Result.fresh sampleOtherBuild).Counts =
        ⟨0, 1, 1, 1⟩ :=
  ⟨by decide,
    (processBuild_untracked_build RangeOrder.insertion sampleConf Result.fresh sampleOtherBuild
      (by decide)).1,
    by decide⟩

/-! ## The keys of the per-queue map -/

theorem GoMap.get_set_self {V : Type} [Inhabited V] (m : GoMap V) (k q : String) :
    (m.set k (m.get k)).get q = m.get q := by
  rw [GoMap.get_set]
  split
  · rename_i h
    rw [h]
  · rfl

theorem getBuildStats_ok (buildkiteBuilds : Fetch) (ρ : Nat → RangeOrder) (res : Result)
    (conf : Config) (stateFilter : String) (builds : List Build)
    (hfetch : buildkiteBuilds conf.BuildkiteOrgSlug conf.BuildkiteApiAccessToken stateFilter =
      Except.ok builds) :
    (getBuildStats buildkiteBuilds ρ res conf stateFilter).2 = none ∧
      (getBuildStats buildkiteBuilds ρ res conf stateFilter).1.Counts =
        (aggregate ρ conf res builds).Counts ∧
      (∀ q, (getBuildStats buildkiteBuilds ρ res conf stateFilter).1.Queues.get q =
        (aggregate ρ conf res builds).Queues.get q) ∧
      (∀ k, k ∈ (getBuildStats buildkiteBuilds ρ res conf stateFilter).1.Queues.keys ↔
        k ∈ (aggregate ρ conf res builds).Queues.keys ∨ k = "default" ∨ k = conf.Queue) := by
  unfold getBuildStats
  rw [hfetch]
  refine ⟨rfl, rfl, ?_, ?_⟩
  · intro q
    show (GoMap.set _ conf.Queue (GoMap.get _ conf.Queue)).get q = _
    rw [GoMap.get_set_self, GoMap.get_set_self]
  · intro k
    show k ∈ (GoMap.set (GoMap.set _ _ _) _ _).keys ↔ _
    rw [GoMap.mem_keys_set, GoMap.mem_keys_set, or_assoc]

/-- C5: when the fetch succeeds, `getBuildStats` run on a `Result` whose
`Queues` map is empty returns no error and leaves a map whose key set is
exactly `"default"` and the configured queue, for every list of builds
fetched (the empty list included): both keys are present, no other queue name
is a key, and a queue among the two into which no job falls has all its
counters at zero. -/
theorem getBuildStats_queue_keys (buildkiteBuilds : Fetch) (ρ : Nat → RangeOrder)
    (counts : Counts) (conf : Config) (stateFilter : String) (builds : List Build)
    (hfetch : buildkiteBuilds conf.BuildkiteOrgSlug conf.BuildkiteApiAccessToken stateFilter =
      Except.ok builds) :
    (getBuildStats buildkiteBuilds ρ ⟨counts, GoMap.empty⟩ conf stateFilter).2 = none ∧
      (∀ k, k ∈ (getBuildStats buildkiteBuilds ρ ⟨counts, GoMap.empty⟩ conf
          stateFilter).1.Queues.keys ↔ k = "default" ∨ k = conf.Queue) ∧
      (getBuildStats buildkiteBuilds ρ ⟨counts, GoMap.empty⟩ conf
          stateFilter).1.Queues.keys.Nodup ∧
      (∀ q, q = "default" ∨ q = conf.Queue → (∀ b ∈ builds, ∀ j ∈ b.Jobs, j.Queue ≠ q) →
        (getBuildStats buildkiteBuilds ρ ⟨counts, GoMap.empty⟩ conf stateFilter).1.Queues.get q =
          Counts.zero) := by
  have hok := getBuildStats_ok buildkiteBuilds ρ ⟨counts, GoMap.empty⟩ conf stateFilter builds
    hfetch
  refine ⟨hok.1, ?_, GoMap.nodup _, ?_⟩
  · intro k
    rw [hok.2.2.2 k, aggregate_keys]
    simp only [GoMap.keys_empty, List.not_mem_nil, false_or]
    constructor
    · rintro (h | h)
      · exact h.1
      · exact h
    · intro h
      exact Or.inr h
  · intro q _ hnone
    rw [hok.2.2.1 q, aggregate_get_untouched ρ conf _ builds q hnone]
    rfl

/-- Witness of C5: the sample fetch succeeds; the keys are `"default"` and
`"ci"` although the builds also have jobs on `"deploy"`. -/
theorem getBuildStats_queue_keys_witness :
    sampleFetch sampleConf.BuildkiteOrgSlug sampleConf.BuildkiteApiAccessToken "running" =
        Except.ok [sampleBuild, sampleOtherBuild] ∧
      ∀ k, k ∈ (getBuildStats sampleFetch (fun _ => RangeOrder.insertion)
          ⟨Counts.zero, GoMap.empty⟩ sampleConf "running").1.Queues.keys ↔
        k = "default" ∨ k = sampleConf.Queue :=
  ⟨rfl, (getBuildStats_queue_keys sampleFetch (fun _ => RangeOrder.insertion) Counts.zero
    sampleConf "running" [sampleBuild, sampleOtherBuild] rfl).2.1⟩

/-! ## Chunking: the groups returned -/

theorem wrapInt_eq (x : Int) (h1 : intMin ≤ x) (h2 : x ≤ intMax) : wrapInt x = x := by
  unfold wrapInt
  unfold intMin at h1
  unfold intMax at h2
  omega

theorem slice_eq_take_drop {α : Type} (data : List α) (i s : Nat) (hs : 1 ≤ s)
    (hi : i < data.length) :
    slice data (i : Int)
        (if ((i + s : Nat) : Int) > (data.length : Int) then (data.length : Int)
          else ((i + s : Nat) : Int)) =
      some ((data.drop i).take s) := by
  unfold slice
  by_cases h : ((i + s : Nat) : Int) > (data.length : Int)
  · have h2 : data.length < i + s := by exact_mod_cast h
    have hc : 0 ≤ (i : Int) ∧ (i : Int) ≤ (data.length : Int) ∧
        (data.length : Int) ≤ (data.length : Int) := by omega
    simp only [h, if_true, hc, and_self, Int.toNat_ofNat]
    have h3 : ((data.length : Int) - (i : Int)).toNat = data.length - i := by omega
    rw [h3, List.take_of_length_le (by simp), List.take_of_length_le (by simp; omega)]
  · have h2 : i + s ≤ data.length := by
      have : ¬ data.length < i + s := fun h3 => h (by exact_mod_cast h3)
      omega
    have hc : 0 ≤ (i : Int) ∧ (i : Int) ≤ ((i + s : Nat) : Int) ∧
        ((i + s : Nat) : Int) ≤ (data.length : Int) := by omega
    simp only [h, if_false, hc, and_self, Int.toNat_ofNat, if_true]
    have h3 : (((i + s : Nat) : Int) - (i : Int)).toNat = s := by omega
    rw [h3]

theorem chunk_count_step (n i s : Nat) (hs : 1 ≤ s) (hi : i < n) :
    (n - i + s - 1) / s = (n - (i + s) + s - 1) / s + 1 := by
  by_cases h : i + s ≤ n
  · have e : n - i + s - 1 = (n - (i + s) + s - 1) + s := by omega
    rw [e, Nat.add_div_right _ (by omega)]
  · have e : n - i + s - 1 = (n - i - 1) + s := by omega
    have e2 : n - (i + s) + s - 1 = s - 1 := by omega
    rw [e, e2, Nat.add_div_right _ (by omega), Nat.div_eq_of_lt (by omega),
      Nat.div_eq_of_lt (by omega)]

theorem chunkLoop_run {α : Type} (s : Nat) (hs : 1 ≤ s) (hmax : (s : Int) ≤ intMax)
    (data : List α) (hlen : 2 * (data.length : Int) ≤ intMax) (fuel : Nat) :
    ∀ (i : Nat) (chunks : List (List α)), (i = 0 ∨ s ≤ i) → data.length - i < fuel →
      chunkLoop (s : Int) data fuel (i : Int) chunks =
        Run.returned (chunks ++
          (List.range ((data.length - i + s - 1) / s)).map
            (fun k => (data.drop (i + k * s)).take s)) := by
  induction fuel with
  | zero =>
    intro i chunks _ h
    omega
  | succ fuel ih =>
    intro i chunks hi hfuel
    rw [chunkLoop]
    by_cases hlt : i < data.length
    · have hcond : (i : Int) < (data.length : Int) := by exact_mod_cast hlt
      have hw : wrapInt ((i : Int) + (s : Int)) = ((i + s : Nat) : Int) := by
        rw [wrapInt_eq]
        · push_cast
          rfl
        · unfold intMin
          omega
        · unfold intMax at hmax hlen ⊢
          omega
      rw [if_pos hcond]
      dsimp only
      rw [hw, slice_eq_take_drop data i s hs hlt]
      dsimp only
      rw [ih (i + s) _ (Or.inr (by omega)) (by omega), chunk_count_step _ _ _ hs hlt,
        List.range_succ_eq_map]
      simp only [List.map_cons, List.map_map, List.append_assoc, List.singleton_append,
        Nat.zero_mul, Nat.add_zero]
      have hf : ((fun k => (data.drop (i + k * s)).take s) ∘ Nat.succ) =
          (fun k => (data.drop (i + s + k * s)).take s) := by
        funext k
        have e : i + Nat.succ k * s = i + s + k * s := by
          rw [Nat.succ_mul]
          omega
        simp only [Function.comp, e]
      rw [hf]
    · have hcond : ¬ (i : Int) < (data.length : Int) := fun h => hlt (by exact_mod_cast h)
      have h0 : (data.length - i + s - 1) / s = 0 := Nat.div_eq_of_lt (by omega)
      rw [if_neg hcond, h0]
      simp only [List.range_zero, List.map_nil, List.append_nil]

theorem chunkMetricData_run {α : Type} (s : Nat) (hs : 1 ≤ s) (hmax : (s : Int) ≤ intMax)
    (data : List α) (hlen : 2 * (data.length : Int) ≤ intMax) (fuel : Nat)
    (hfuel : data.length < fuel) :
    chunkMetricData fuel (s : Int) data =
      Run.returned ((List.range ((data.length + s - 1) / s)).map
        (fun k => (data.drop (k * s)).take s)) := by
  have h := chunkLoop_run s hs hmax data hlen fuel 0 [] (Or.inl rfl) (by omega)
  simp only [Nat.sub_zero, Nat.zero_add, List.nil_append] at h
  exact h

theorem flatten_range_chunks {α : Type} (s : Nat) (data : List α) (m : Nat) :
    ((List.range m).map (fun k => (data.drop (k * s)).take s)).flatten = data.take (m * s) := by
  induction m with
  | zero => simp
  | succ m ih =>
    rw [List.range_succ, List.map_append, List.flatten_append, ih, Nat.succ_mul, List.take_add]
    simp

theorem le_ceil_mul (n s : Nat) (hs : 1 ≤ s) : n ≤ (n + s - 1) / s * s := by
  have h1 := Nat.div_add_mod (n + s - 1) s
  have h2 := Nat.mod_lt (n + s - 1) (by omega : s > 0)
  rw [Nat.mul_comm] at h1
  omega

theorem lt_ceil_iff (n s k : Nat) (hs : 1 ≤ s) : k < (n + s - 1) / s ↔ k * s < n := by
  rw [Nat.lt_iff_add_one_le, Nat.le_div_iff_mul_le (by omega), Nat.succ_mul]
  omega

theorem ceil_le_iff (n s m : Nat) (hs : 1 ≤ s) : (n + s - 1) / s ≤ m ↔ n ≤ m * s := by
  rw [← Nat.lt_add_one_iff, Nat.div_lt_iff_lt_mul (by omega), Nat.succ_mul]
  omega

theorem getElem?_range_chunks {α : Type} (s : Nat) (data : List α) (m k : Nat) (c : List α)
    (h : ((List.range m).map (fun k => (data.drop (k * s)).take s))[k]? = some c) :
    k < m ∧ c = (data.drop (k * s)).take s := by
  rw [List.getElem?_map] at h
  by_cases hk : k < m
  · rw [List.getElem?_range hk] at h
    simp only [Option.map_some', Option.some.injEq] at h
    exact ⟨hk, h.symm⟩
  · rw [List.getElem?_eq_none (by simpa using hk)] at h
    simp at h

/-- C6: for every size of at least 1 and every sequence of metric points,
`chunkMetricData` returns (with more fuel than there are points) groups whose
concatenation in order is exactly the sequence given, the `k`-th group being
the consecutive slice that starts at position `k * size` and holds at most
`size` points. The hypotheses other than `1 ≤ size` are the ranges of Go's
`int` and of the length of a slice of pointers. -/
theorem chunkMetricData_concat {α : Type} (size : Int) (data : List α) (fuel : Nat)
    (hsize : 1 ≤ size) (hmax : size ≤ intMax) (hlen : 2 * (data.length : Int) ≤ intMax)
    (hfuel : data.length < fuel) :
    ∃ chunks, chunkMetricData fuel size data = Run.returned chunks ∧
      chunks.flatten = data ∧
      ∀ k c, chunks[k]? = some c → c = (data.drop (k * size.toNat)).take size.toNat := by
  obtain ⟨s, rfl⟩ := Int.eq_ofNat_of_zero_le (by omega : 0 ≤ size)
  have hs : 1 ≤ s := by omega
  refine ⟨_, chunkMetricData_run s hs hmax data hlen fuel hfuel, ?_, ?_⟩
  · rw [flatten_range_chunks, List.take_of_length_le (le_ceil_mul _ _ hs)]
  · intro k c hc
    exact (getElem?_range_chunks s data _ k c hc).2

/-- Witness of C6: 23 points in groups of 10. -/
theorem chunkMetricData_concat_witness :
    (1 : Int) ≤ 10 ∧ (10 : Int) ≤ intMax ∧ 2 * ((List.range 23).length : Int) ≤ intMax ∧
      (List.range 23).length < 24 ∧
      ∃ chunks, chunkMetricData 24 10 (List.range 23) = Run.returned chunks ∧
        chunks.flatten = List.range 23 ∧
        ∀ k c, chunks[k]? = some c →
          c = ((List.range 23).drop (k * (10 : Int).toNat)).take (10 : Int).toNat :=
  ⟨by decide, by decide, by decide, by decide,
    chunkMetricData_concat 10 (List.range 23) 24 (by decide) (by decide) (by decide)
      (by decide)⟩

/-- C7: for every size of at least 1 and every sequence of `n` metric points,
`chunkMetricData` terminates (any fuel above `n` suffices) and returns exactly
`⌈n / size⌉` groups, the least number of groups of `size` points that hold `n`
points; every group has between 1 and `size` points and every group but the
last has exactly `size`. Empty input gives zero groups, and 23 points in
groups of 10 give groups of sizes 10, 10 and 3. The hypotheses other than
`1 ≤ size` are the ranges of Go's `int` and of the length of a slice of
pointers. -/
theorem chunkMetricData_groups {α : Type} (size : Int) (data : List α) (fuel : Nat)
    (hsize : 1 ≤ size) (hmax : size ≤ intMax) (hlen : 2 * (data.length : Int) ≤ intMax)
    (hfuel : data.length < fuel) :
    ∃ chunks, chunkMetricData fuel size data = Run.returned chunks ∧
      chunks.length = (data.length + size.toNat - 1) / size.toNat ∧
      (∀ m, chunks.length ≤ m ↔ data.length ≤ m * size.toNat) ∧
      (∀ k c, chunks[k]? = some c →
        1 ≤ c.length ∧ c.length ≤ size.toNat ∧
          (k + 1 < chunks.length → c.length = size.toNat)) ∧
      (data = [] → chunks = []) ∧
      (size = 10 → data.length = 23 → chunks.map List.length = [10, 10, 3]) := by
  obtain ⟨s, rfl⟩ := Int.eq_ofNat_of_zero_le (by omega : 0 ≤ size)
  have hs : 1 ≤ s := by omega
  refine ⟨_, chunkMetricData_run s hs hmax data hlen fuel hfuel, ?_, ?_, ?_, ?_, ?_⟩
  · simp
  · intro m
    simp only [List.length_map, List.length_range, Int.toNat_ofNat]
    exact ceil_le_iff _ _ _ hs
  · intro k c hc
    obtain ⟨hk, rfl⟩ := getElem?_range_chunks s data _ k c hc
    have hk2 := (lt_ceil_iff _ _ _ hs).mp hk
    simp only [List.length_take, List.length_drop, List.length_map, List.length_range,
      Int.toNat_ofNat]
    refine ⟨by omega, by omega, ?_⟩
    intro hk3
    have hk4 := (lt_ceil_iff _ _ _ hs).mp hk3
    rw [Nat.succ_mul] at hk4
    omega
  · intro hd
    subst hd
    have h0 : ((([] : List α).length + s - 1) / s) = 0 := Nat.div_eq_of_lt (by simp; omega)
    rw [h0]
    rfl
  · intro h10 h23
    have hs10 : s = 10 := by omega
    subst hs10
    rw [h23]
    simp [List.range_succ, List.length_take, List.length_drop, h23]

/-- Witness of C7: 23 points in groups of 10. -/
theorem chunkMetricData_groups_witness :
    (1 : Int) ≤ 10 ∧ (10 : Int) ≤ intMax ∧ 2 * ((List.range 23).length : Int) ≤ intMax ∧
      (List.range 23).length < 24 ∧
      ∃ chunks, chunkMetricData 24 10 (List.range 23) = Run.returned chunks ∧
        chunks.length = ((List.range 23).length + (10 : Int).toNat - 1) / (10 : Int).toNat ∧
        (∀ m, chunks.length ≤ m ↔ (List.range 23).length ≤ m * (10 : Int).toNat) ∧
        (∀ k c, chunks[k]? = some c →
          1 ≤ c.length ∧ c.length ≤ (10 : Int).toNat ∧
            (k + 1 < chunks.length → c.length = (10 : Int).toNat)) ∧
        (List.range 23 = [] → chunks = []) ∧
        ((10 : Int) = 10 → (List.range 23).length = 23 → chunks.map List.length = [10, 10, 3]) :=
  ⟨by decide, by decide, by decide, by decide,
    chunkMetricData_groups 10 (List.range 23) 24 (by decide) (by decide) (by decide)
      (by decide)⟩

/-! ## Metric extraction -/

theorem Counts.length_asMetrics (c : Counts) (d : List Dimension) : (c.asMetrics d).length = 4 :=
  rfl

theorem foldl_append_eq {α β : Type} (f : α → List β) (l : List α) (init : List β) :
    l.foldl (fun data a => data ++ f a) init = init ++ (l.map f).flatten := by
  induction l generalizing init with
  | nil => simp
  | cons a l ih => simp [List.foldl_cons, ih, List.append_assoc]

theorem length_flatten_asMetrics (f : String → Counts) (l : List String) :
    ((l.map (fun name => (f name).asMetrics [⟨"Queue", name⟩])).flatten).length =
      4 * l.length := by
  induction l with
  | nil => rfl
  | cons a l ih =>
    simp only [List.map_cons, List.flatten_cons, List.length_append, ih, List.length_cons,
      Counts.length_asMetrics]
    omega

theorem length_extractMetricData (σ : RangeOrder) (r : Result) :
    (r.extractMetricData σ).length = 4 * (1 + r.Queues.entries.length) := by
  unfold Result.extractMetricData
  rw [foldl_append_eq, List.nil_append, List.length_append, length_flatten_asMetrics,
    Counts.length_asMetrics, (σ.perm _).length_eq]
  unfold GoMap.keys
  rw [List.length_map]
  omega

/-! ## The conversion to `float64` -/

theorem bitLength_le (fuel : Nat) : ∀ (n k : Nat), n < 2 ^ k → bitLength fuel n ≤ k := by
  induction fuel with
  | zero =>
    intro n k _
    exact Nat.zero_le k
  | succ fuel ih =>
    intro n k h
    unfold bitLength
    by_cases h0 : n = 0
    · rw [if_pos h0]
      exact Nat.zero_le k
    · rw [if_neg h0]
      cases k with
      | zero =>
        simp only [Nat.pow_zero] at h
        omega
      | succ k =>
        have h2 : n / 2 < 2 ^ k := by
          rw [Nat.pow_succ] at h
          omega
        have := ih (n / 2) k h2
        omega

theorem roundNat53_eq (n : Nat) (h : n ≤ 9007199254740992) : roundNat53 n = n := by
  by_cases h1 : n = 9007199254740992
  · rw [h1]
    decide
  · have hlt : n < 2 ^ 53 := by
      have e : (2 : Nat) ^ 53 = 9007199254740992 := by norm_num
      rw [e]
      omega
    have hb := bitLength_le 64 n 53 hlt
    have hs : bitLength 64 n - 53 = 0 := by omega
    unfold roundNat53
    simp only [hs, Nat.pow_zero, Nat.div_one, Nat.mod_one, Nat.mul_zero, Nat.mul_one]
    simp

theorem float64_value_eq (x : Int) (h1 : -9007199254740992 ≤ x) (h2 : x ≤ 9007199254740992) :
    (float64 x).value = x := by
  unfold float64
  have hn : x.natAbs ≤ 9007199254740992 := by omega
  rw [roundNat53_eq _ hn]
  by_cases h0 : 0 ≤ x
  · simp only [h0, if_true]
    omega
  · simp only [h0, if_false]
    omega

/-- Above `2 ^ 53` the conversion rounds: `2 ^ 53 + 1` becomes `2 ^ 53`. -/
theorem float64_rounds : (float64 9007199254740993).value = 9007199254740992 := by
  decide

/-- C10: for every `Counts` and every set of dimensions, `asMetrics` returns
exactly 4 points, named in the fixed order `RunningBuildsCount`,
`ScheduledBuildsCount`, `RunningJobsCount`, `ScheduledJobsCount`, whose values
are the conversions to `float64` of `RunningBuilds`, `ScheduledBuilds`,
`RunningJobs` and `ScheduledJobs` in that order, each with unit `"Count"` and
each tagged with the dimensions given. The conversion is exact, so that the
value is the counter itself, for every counter between `-2 ^ 53` and
`2 ^ 53`. -/
theorem asMetrics_points (c : Counts) (d : List Dimension) :
    (c.asMetrics d).length = 4 ∧
      (c.asMetrics d).map (fun m => m.MetricName) =
        ["RunningBuildsCount", "ScheduledBuildsCount", "RunningJobsCount",
          "ScheduledJobsCount"] ∧
      (c.asMetrics d).map (fun m => m.Value) =
        [float64 c.RunningBuilds, float64 c.ScheduledBuilds, float64 c.RunningJobs,
          float64 c.ScheduledJobs] ∧
      (-9007199254740992 ≤ c.RunningBuilds → c.RunningBuilds ≤ 9007199254740992 →
        (float64 c.RunningBuilds).value = c.RunningBuilds) ∧
      (-9007199254740992 ≤ c.ScheduledBuilds → c.ScheduledBuilds ≤ 9007199254740992 →
        (float64 c.ScheduledBuilds).value = c.ScheduledBuilds) ∧
      (-9007199254740992 ≤ c.RunningJobs → c.RunningJobs ≤ 9007199254740992 →
        (float64 c.RunningJobs).value = c.RunningJobs) ∧
      (-9007199254740992 ≤ c.ScheduledJobs → c.ScheduledJobs ≤ 9007199254740992 →
        (float64 c.ScheduledJobs).value = c.ScheduledJobs) ∧
      (c.RunningBuilds.natAbs ≤ 9007199254740992 → c.ScheduledBuilds.natAbs ≤ 9007199254740992 →
        c.RunningJobs.natAbs ≤ 9007199254740992 → c.ScheduledJobs.natAbs ≤ 9007199254740992 →
        (c.asMetrics d).map (fun m => m.Value.value) =
          [c.RunningBuilds, c.ScheduledBuilds, c.RunningJobs, c.ScheduledJobs]) ∧
      (∀ m ∈ c.asMetrics d, m.Unit = "Count" ∧ m.Dimensions = d) := by
  refine ⟨rfl, rfl, rfl, float64_value_eq _, float64_value_eq _, float64_value_eq _,
    float64_value_eq _, ?_, ?_⟩
  · intro h1 h2 h3 h4
    show [(float64 c.RunningBuilds).value, (float64 c.ScheduledBuilds).value,
      (float64 c.RunningJobs).value, (float64 c.ScheduledJobs).value] = _
    rw [float64_value_eq _ (by omega) (by omega), float64_value_eq _ (by omega) (by omega),
      float64_value_eq _ (by omega) (by omega), float64_value_eq _ (by omega) (by omega)]
  · intro m hm
    simp only [Counts.asMetrics, List.mem_cons, List.mem_singleton, List.not_mem_nil,
      or_false] at hm
    rcases hm with h | h | h | h <;> subst h <;> exact ⟨rfl, rfl⟩

/-- C10 on an input: the counters 3, 1, 2, 5 (running builds, running jobs,
scheduled builds, scheduled jobs) give the values 3, 2, 1, 5 in the order of
the four names. -/
theorem asMetrics_points_witness :
    (Counts.asMetrics ⟨3, 1, 2, 5⟩ [⟨"Queue", "ci"⟩]).map (fun m => m.Value.value) =
      [3, 2, 1, 5] :=
  (asMetrics_points ⟨3, 1, 2, 5⟩ [⟨"Queue", "ci"⟩]).2.2.2.2.2.2.2.1 (by decide) (by decide)
    (by decide) (by decide)

/-- C8: for every `Result`, `extractMetricData` returns the 4 points of the
global `Counts` without dimensions, followed, for each key of `Queues` in the
order in which `range` visits them, by the 4 points of the `Counts` of that
queue tagged with the one dimension `Queue` = key; the keys visited are the
keys of the map, each exactly once; hence the number of points is
`4 * (1 + number of entries of Queues)`. -/
theorem extractMetricData_points (σ : RangeOrder) (r : Result) :
    r.extractMetricData σ =
        r.Counts.asMetrics [] ++
          ((σ.order r.Queues.keys).map
            (fun name => (r.Queues.get name).asMetrics [⟨"Queue", name⟩])).flatten ∧
      (σ.order r.Queues.keys).Perm r.Queues.keys ∧
      (σ.order r.Queues.keys).Nodup ∧
      (r.extractMetricData σ).length = 4 * (1 + r.Queues.entries.length) := by
  have h1 : r.extractMetricData σ =
      r.Counts.asMetrics [] ++
        ((σ.order r.Queues.keys).map
          (fun name => (r.Queues.get name).asMetrics [⟨"Queue", name⟩])).flatten := by
    unfold Result.extractMetricData
    rw [foldl_append_eq, List.nil_append]
  refine ⟨h1, σ.perm _, (σ.perm _).nodup_iff.mpr r.Queues.nodup, ?_⟩
  rw [h1, List.length_append, length_flatten_asMetrics, Counts.length_asMetrics,
    (σ.perm _).length_eq]
  unfold GoMap.keys
  rw [List.length_map]
  omega

/-! ## The queues after the two passes -/

theorem getBuildStats_keys_tracked (buildkiteBuilds : Fetch) (ρ : Nat → RangeOrder)
    (res : Result) (conf : Config) (stateFilter : String) (builds : List Build)
    (hfetch : buildkiteBuilds conf.BuildkiteOrgSlug conf.BuildkiteApiAccessToken stateFilter =
      Except.ok builds)
    (hres : ∀ k ∈ res.Queues.keys, k = "default" ∨ k = conf.Queue) (k : String) :
    k ∈ (getBuildStats buildkiteBuilds ρ res conf stateFilter).1.Queues.keys ↔
      k = "default" ∨ k = conf.Queue := by
  rw [(getBuildStats_ok buildkiteBuilds ρ res conf stateFilter builds hfetch).2.2.2 k,
    aggregate_keys]
  constructor
  · rintro ((h | h) | h)
    · exact hres k h
    · exact h.1
    · exact h
  · intro h
    exact Or.inr h

theorem length_keys_of_two (l : List String) (a b : String) (hab : a ≠ b) (hnd : l.Nodup)
    (hmem : ∀ k, k ∈ l ↔ k = a ∨ k = b) : l.length = 2 := by
  have hp : l.Perm [a, b] := by
    rw [List.perm_ext_iff_of_nodup hnd (by simp [hab])]
    intro k
    rw [hmem k]
    simp
  exact hp.length_eq

theorem length_keys_of_one (l : List String) (a : String) (hnd : l.Nodup)
    (hmem : ∀ k, k ∈ l ↔ k = a) : l.length = 1 := by
  have hp : l.Perm [a] := by
    rw [List.perm_ext_iff_of_nodup hnd (by simp)]
    intro k
    rw [hmem k]
    simp
  exact hp.length_eq

/-- What `collect` returns when both fetches succeed. -/
theorem collect_ok (buildkiteBuilds : Fetch) (ρ₁ ρ₂ : Nat → RangeOrder) (conf : Config)
    (running scheduled : List Build)
    (hr : buildkiteBuilds conf.BuildkiteOrgSlug conf.BuildkiteApiAccessToken "running" =
      Except.ok running)
    (hs : buildkiteBuilds conf.BuildkiteOrgSlug conf.BuildkiteApiAccessToken "scheduled" =
      Except.ok scheduled) :
    (collect buildkiteBuilds ρ₁ ρ₂ conf).2 = none ∧
      (∀ k, k ∈ (collect buildkiteBuilds ρ₁ ρ₂ conf).1.Queues.keys ↔
        k = "default" ∨ k = conf.Queue) ∧
      (∀ q, (∀ b ∈ running ++ scheduled, ∀ j ∈ b.Jobs, j.Queue ≠ q) →
        (collect buildkiteBuilds ρ₁ ρ₂ conf).1.Queues.get q = Counts.zero) := by
  have h1 := getBuildStats_ok buildkiteBuilds ρ₁ Result.fresh conf "running" running hr
  have hc : collect buildkiteBuilds ρ₁ ρ₂ conf =
      getBuildStats buildkiteBuilds ρ₂
        (getBuildStats buildkiteBuilds ρ₁ Result.fresh conf "running").1 conf "scheduled" := by
    unfold collect
    generalize getBuildStats buildkiteBuilds ρ₁ Result.fresh conf "running" = out at h1
    obtain ⟨res, err⟩ := out
    simp only at h1
    rw [h1.1]
  rw [hc]
  have h2 := getBuildStats_ok buildkiteBuilds ρ₂
    (getBuildStats buildkiteBuilds ρ₁ Result.fresh conf "running").1 conf "scheduled" scheduled hs
  refine ⟨h2.1, ?_, ?_⟩
  · intro k
    apply getBuildStats_keys_tracked _ _ _ _ _ scheduled hs
    intro k2 hk2
    exact (getBuildStats_keys_tracked _ _ _ _ _ running hr
      (fun k3 hk3 => absurd hk3 (by simp [Result.fresh, GoMap.keys_empty])) k2).mp hk2
  · intro q hnone
    rw [h2.2.2.1 q, aggregate_get_untouched _ _ _ _ _
      (fun b hb => hnone b (List.mem_append_right _ hb)), h1.2.2.1 q,
      aggregate_get_untouched _ _ _ _ _ (fun b hb => hnone b (List.mem_append_left _ hb))]
    rfl

/-- C9, counterexample: the configuration whose queue is `"default"` passes
validation and both passes succeed on empty build lists, yet the `Queues` map
has the single key `"default"` and `extractMetricData` returns 8 points, not
12. -/
theorem extractMetricData_default_queue_eight :
    validate ⟨"acme", "token", "default"⟩ = none ∧
      (collect emptyFetch (fun _ => RangeOrder.insertion) (fun _ => RangeOrder.insertion)
        ⟨"acme", "token", "default"⟩).2 = none ∧
      ((collect emptyFetch (fun _ => RangeOrder.insertion) (fun _ => RangeOrder.insertion)
        ⟨"acme", "token", "default"⟩).1.extractMetricData RangeOrder.insertion).length = 8 ∧
      ((collect emptyFetch (fun _ => RangeOrder.insertion) (fun _ => RangeOrder.insertion)
        ⟨"acme", "token", "default"⟩).1.extractMetricData RangeOrder.insertion).length ≠ 12 := by
  refine ⟨by decide, by decide, by decide, by decide⟩

/-- C9, amended: after the two passes have run from a fresh `Result` with both
fetches successful, `extractMetricData` returns exactly 12 points when the
configured queue differs from `"default"` (4 global and 4 for each of the
two queues) and exactly 8 when the configured queue is `"default"` itself
(the map then has that single key); a queue among the two into which no job
of any fetched build falls has all its counters at zero. -/
theorem extractMetricData_after_passes (buildkiteBuilds : Fetch) (ρ₁ ρ₂ : Nat → RangeOrder)
    (σ : RangeOrder) (conf : Config) (running scheduled : List Build)
    (hr : buildkiteBuilds conf.BuildkiteOrgSlug conf.BuildkiteApiAccessToken "running" =
      Except.ok running)
    (hs : buildkiteBuilds conf.BuildkiteOrgSlug conf.BuildkiteApiAccessToken "scheduled" =
      Except.ok scheduled) :
    (collect buildkiteBuilds ρ₁ ρ₂ conf).2 = none ∧
      ((collect buildkiteBuilds ρ₁ ρ₂ conf).1.extractMetricData σ).length =
        (if conf.Queue = "default" then 8 else 12) ∧
      (∀ q, q = "default" ∨ q = conf.Queue →
        (∀ b ∈ running ++ scheduled, ∀ j ∈ b.Jobs, j.Queue ≠ q) →
        (collect buildkiteBuilds ρ₁ ρ₂ conf).1.Queues.get q = Counts.zero) := by
  have hc := collect_ok buildkiteBuilds ρ₁ ρ₂ conf running scheduled hr hs
  refine ⟨hc.1, ?_, fun q _ hnone => hc.2.2 q hnone⟩
  rw [length_extractMetricData]
  have hlen : (collect buildkiteBuilds ρ₁ ρ₂ conf).1.Queues.entries.length =
      (collect buildkiteBuilds ρ₁ ρ₂ conf).1.Queues.keys.length := by
    unfold GoMap.keys
    rw [List.length_map]
  rw [hlen]
  by_cases hq : conf.Queue = "default"
  · have h1 : (collect buildkiteBuilds ρ₁ ρ₂ conf).1.Queues.keys.length = 1 :=
      length_keys_of_one (collect buildkiteBuilds ρ₁ ρ₂ conf).1.Queues.keys "default"
        (GoMap.nodup _) (fun k => by rw [hc.2.1 k, hq, or_self])
    rw [if_pos hq, h1]
  · have h2 : (collect buildkiteBuilds ρ₁ ρ₂ conf).1.Queues.keys.length = 2 :=
      length_keys_of_two (collect buildkiteBuilds ρ₁ ρ₂ conf).1.Queues.keys "default" conf.Queue
        (fun h => hq h.symm) (GoMap.nodup _) hc.2.1
    rw [if_neg hq, h2]

/-- Witness of C9 as amended: the sample fetch and the queue `"ci"` give 12
points. -/
theorem extractMetricData_after_passes_witness :
    sampleFetch sampleConf.BuildkiteOrgSlug sampleConf.BuildkiteApiAccessToken "running" =
        Except.ok [sampleBuild, sampleOtherBuild] ∧
      sampleFetch sampleConf.BuildkiteOrgSlug sampleConf.BuildkiteApiAccessToken "scheduled" =
        Except.ok [sampleBuild, sampleOtherBuild] ∧
      ((collect sampleFetch (fun _ => RangeOrder.insertion) (fun _ => RangeOrder.reversed)
        sampleConf).1.extractMetricData RangeOrder.reversed).length = 12 :=
  ⟨rfl, rfl,
    (extractMetricData_after_passes sampleFetch (fun _ => RangeOrder.insertion)
      (fun _ => RangeOrder.reversed) RangeOrder.reversed sampleConf
      [sampleBuild, sampleOtherBuild] [sampleBuild, sampleOtherBuild] rfl rfl).2.1⟩

/-! ## States other than running and scheduled -/

theorem Counts.addBuild_other (c : Counts) (b : Build) (h1 : b.State ≠ "running")
    (h2 : b.State ≠ "scheduled") : c.addBuild b = c := by
  unfold Counts.addBuild
  rw [if_neg h1, if_neg h2]

theorem Counts.addJob_other (c : Counts) (j : Job) (h1 : j.State ≠ "running")
    (h2 : j.State ≠ "scheduled") : c.addJob j = c := by
  unfold Counts.addJob
  rw [if_neg h1, if_neg h2]

theorem Counts.foldl_addJob_other (jobs : List Job) (c : Counts)
    (h : ∀ j ∈ jobs, j.State ≠ "running" ∧ j.State ≠ "scheduled") :
    jobs.foldl Counts.addJob c = c := by
  induction jobs generalizing c with
  | nil => rfl
  | cons j jobs ih =>
    have hj := h j (List.mem_cons_self j jobs)
    rw [List.foldl_cons, Counts.addJob_other c j hj.1 hj.2]
    exact ih c (fun j2 hj2 => h j2 (List.mem_cons_of_mem j hj2))

theorem processBuild_other (σ : RangeOrder) (conf : Config) (res : Result) (b : Build)
    (hb : b.State ≠ "running" ∧ b.State ≠ "scheduled")
    (hj : ∀ j ∈ b.Jobs, j.State ≠ "running" ∧ j.State ≠ "scheduled") :
    (processBuild σ conf res b).Counts = res.Counts ∧
      ∀ q, (processBuild σ conf res b).Queues.get q = res.Queues.get q := by
  constructor
  · rw [processBuild_Counts, Counts.addBuild_other _ b hb.1 hb.2,
      Counts.foldl_addJob_other _ _ hj]
  · intro q
    rw [processBuild_get]
    split
    · rw [Counts.foldl_addJob_other _ _
        (fun j hjm => hj j (List.mem_of_mem_filter hjm)), Counts.addBuild_other _ b hb.1 hb.2]
    · rfl

theorem aggregate_other (ρ : Nat → RangeOrder) (conf : Config) (res : Result)
    (builds : List Build)
    (h : ∀ b ∈ builds, (b.State ≠ "running" ∧ b.State ≠ "scheduled") ∧
      ∀ j ∈ b.Jobs, j.State ≠ "running" ∧ j.State ≠ "scheduled") :
    (aggregate ρ conf res builds).Counts = res.Counts ∧
      ∀ q, (aggregate ρ conf res builds).Queues.get q = res.Queues.get q := by
  induction builds generalizing res ρ with
  | nil => exact ⟨rfl, fun _ => rfl⟩
  | cons b bs ih =>
    have hb := h b (List.mem_cons_self b bs)
    have hstep := processBuild_other (ρ 0) conf res b hb.1 hb.2
    have hrest := ih (fun n => ρ (n + 1)) (processBuild (ρ 0) conf res b)
      (fun b2 hb2 => h b2 (List.mem_cons_of_mem b hb2))
    unfold aggregate
    refine ⟨hrest.1.trans hstep.1, fun q => (hrest.2 q).trans (hstep.2 q)⟩

/-- C11: `addBuild` with a build, and `addJob` with a job, whose state is
neither `"running"` nor `"scheduled"` return the `Counts` unchanged;
consequently a build whose own state and all of whose jobs' states are neither
of the two changes, when `getBuildStats` processes it, no counter value,
global or per-queue, and `getBuildStats` over builds of that kind returns no
error and leaves every counter value as it was. -/
theorem unknown_states_change_nothing (conf : Config) (builds : List Build)
    (h : ∀ b ∈ builds, (b.State ≠ "running" ∧ b.State ≠ "scheduled") ∧
      ∀ j ∈ b.Jobs, j.State ≠ "running" ∧ j.State ≠ "scheduled") :
    (∀ (c : Counts) (b : Build), b.State ≠ "running" → b.State ≠ "scheduled" →
        c.addBuild b = c) ∧
      (∀ (c : Counts) (j : Job), j.State ≠ "running" → j.State ≠ "scheduled" →
        c.addJob j = c) ∧
      (∀ b ∈ builds, ∀ (σ : RangeOrder) (res : Result),
        (processBuild σ conf res b).Counts = res.Counts ∧
          ∀ q, (processBuild σ conf res b).Queues.get q = res.Queues.get q) ∧
      (∀ (buildkiteBuilds : Fetch) (ρ : Nat → RangeOrder) (res : Result) (stateFilter : String),
        buildkiteBuilds conf.BuildkiteOrgSlug conf.BuildkiteApiAccessToken stateFilter =
          Except.ok builds →
        (getBuildStats buildkiteBuilds ρ res conf stateFilter).2 = none ∧
          (getBuildStats buildkiteBuilds ρ res conf stateFilter).1.Counts = res.Counts ∧
          ∀ q, (getBuildStats buildkiteBuilds ρ res conf stateFilter).1.Queues.get q =
            res.Queues.get q) := by
  refine ⟨Counts.addBuild_other, Counts.addJob_other, ?_, ?_⟩
  · intro b hb σ res
    exact processBuild_other σ conf res b (h b hb).1 (h b hb).2
  · intro buildkiteBuilds ρ res stateFilter hfetch
    have hok := getBuildStats_ok buildkiteBuilds ρ res conf stateFilter builds hfetch
    have hagg := aggregate_other ρ conf res builds h
    exact ⟨hok.1, hok.2.1.trans hagg.1, fun q => (hok.2.2.1 q).trans (hagg.2 q)⟩

/-- Witness of C11: the sample build in state `"passed"`, whose jobs are
`"passed"`, `"canceled"` and `"blocked"`. -/
theorem unknown_states_change_nothing_witness :
    (∀ b ∈ [samplePassedBuild], (b.State ≠ "running" ∧ b.State ≠ "scheduled") ∧
        ∀ j ∈ b.Jobs, j.State ≠ "running" ∧ j.State ≠ "scheduled") ∧
      ∀ b ∈ [samplePassedBuild], ∀ (σ : RangeOrder) (res : Result),
        (processBuild σ sampleConf res b).Counts = res.Counts ∧
          ∀ q, (processBuild σ sampleConf res b).Queues.get q = res.Queues.get q :=
  ⟨by decide, (unknown_states_change_nothing sampleConf [samplePassedBuild] (by decide)).2.2.1⟩

/-! ## The end-to-end scenario -/

/-- C12: for the one build in state `"running"` with one job in state
`"running"` on the queue `"ci"`, and the configured queue `"ci"`, the
aggregation loop of `getBuildStats` run from a fresh `Result` yields the global
counters `RunningBuilds = 1`, `RunningJobs = 1`, `ScheduledBuilds = 0`,
`ScheduledJobs = 0`, an all-zero `Queues["default"]`, and `Queues["ci"]` with
`RunningBuilds = 1`, `RunningJobs = 1` and the scheduled counters zero;
`getBuildStats` then has exactly the keys `"default"` and `"ci"`. -/
theorem scenario_counts (ρ : Nat → RangeOrder) (org token : String) :
    (aggregate ρ ⟨org, token, "ci"⟩ Result.fresh [scenarioBuild]).Counts =
        { RunningBuilds := 1, RunningJobs := 1, ScheduledBuilds := 0, ScheduledJobs := 0 } ∧
      (aggregate ρ ⟨org, token, "ci"⟩ Result.fresh [scenarioBuild]).Queues.get "default" =
        { RunningBuilds := 0, RunningJobs := 0, ScheduledBuilds := 0, ScheduledJobs := 0 } ∧
      (aggregate ρ ⟨org, token, "ci"⟩ Result.fresh [scenarioBuild]).Queues.get "ci" =
        { RunningBuilds := 1, RunningJobs := 1, ScheduledBuilds := 0, ScheduledJobs := 0 } ∧
      (∀ k, k ∈ (getBuildStats (fun _ _ _ => Except.ok [scenarioBuild]) ρ Result.fresh
          ⟨org, token, "ci"⟩ "running").1.Queues.keys ↔ k = "default" ∨ k = "ci") := by
  refine ⟨?_, ?_, ?_, ?_⟩
  · unfold aggregate aggregate
    rw [processBuild_Counts]
    decide
  · unfold aggregate aggregate
    rw [processBuild_get]
    dsimp only
    decide
  · unfold aggregate aggregate
    rw [processBuild_get]
    dsimp only
    decide
  · intro k
    exact getBuildStats_keys_tracked (fun _ _ _ => Except.ok [scenarioBuild]) ρ Result.fresh
      ⟨org, token, "ci"⟩ "running" [scenarioBuild] rfl
      (fun k2 hk2 => absurd hk2 (by simp [Result.fresh, GoMap.keys_empty])) k

/-! ## The handler: validation and fetch failures -/

theorem handler_of_invalid (buildkiteBuilds : Fetch) (putMetricData : Put)
    (ρ₁ ρ₂ : Nat → RangeOrder) (σ : RangeOrder) (fuel : Nat) (conf : Config) (err : Error)
    (h : validate conf = some err) :
    handler buildkiteBuilds putMetricData ρ₁ ρ₂ σ fuel (Except.ok conf) =
      (Run.returned (none, some err), ⟨[], []⟩) := by
  unfold handler
  simp only [h]

theorem getBuildStats_of_error (buildkiteBuilds : Fetch) (ρ : Nat → RangeOrder) (res : Result)
    (conf : Config) (stateFilter : String) (err : Error)
    (h : buildkiteBuilds conf.BuildkiteOrgSlug conf.BuildkiteApiAccessToken stateFilter =
      Except.error err) :
    getBuildStats buildkiteBuilds ρ res conf stateFilter = (res, some err) := by
  unfold getBuildStats
  rw [h]

theorem getBuildStats_of_ok (buildkiteBuilds : Fetch) (ρ : Nat → RangeOrder) (res : Result)
    (conf : Config) (stateFilter : String) (builds : List Build)
    (h : buildkiteBuilds conf.BuildkiteOrgSlug conf.BuildkiteApiAccessToken stateFilter =
      Except.ok builds) :
    getBuildStats buildkiteBuilds ρ res conf stateFilter =
      ((getBuildStats buildkiteBuilds ρ res conf stateFilter).1, none) := by
  have h2 := (getBuildStats_ok buildkiteBuilds ρ res conf stateFilter builds h).1
  generalize getBuildStats buildkiteBuilds ρ res conf stateFilter = out at h2 ⊢
  obtain ⟨r, e⟩ := out
  simp only at h2
  rw [h2]

theorem handler_of_running_error (buildkiteBuilds : Fetch) (putMetricData : Put)
    (ρ₁ ρ₂ : Nat → RangeOrder) (σ : RangeOrder) (fuel : Nat) (conf : Config) (res : Result)
    (err : Error) (h : validate conf = none)
    (h1 : getBuildStats buildkiteBuilds ρ₁ Result.fresh conf "running" = (res, some err)) :
    handler buildkiteBuilds putMetricData ρ₁ ρ₂ σ fuel (Except.ok conf) =
      (Run.returned (none, some err), ⟨["running"], []⟩) := by
  unfold handler
  simp only [h, getBuildStatsLogged, h1, List.nil_append]

theorem handler_of_scheduled_error (buildkiteBuilds : Fetch) (putMetricData : Put)
    (ρ₁ ρ₂ : Nat → RangeOrder) (σ : RangeOrder) (fuel : Nat) (conf : Config)
    (res res2 : Result) (err : Error) (h : validate conf = none)
    (h1 : getBuildStats buildkiteBuilds ρ₁ Result.fresh conf "running" = (res, none))
    (h2 : getBuildStats buildkiteBuilds ρ₂ res conf "scheduled" = (res2, some err)) :
    handler buildkiteBuilds putMetricData ρ₁ ρ₂ σ fuel (Except.ok conf) =
      (Run.returned (none, some err), ⟨["running", "scheduled"], []⟩) := by
  unfold handler
  simp only [h, getBuildStatsLogged, h1, h2, List.nil_append, List.singleton_append]

theorem handler_of_passes (buildkiteBuilds : Fetch) (putMetricData : Put)
    (ρ₁ ρ₂ : Nat → RangeOrder) (σ : RangeOrder) (fuel : Nat) (conf : Config)
    (res res2 : Result) (h : validate conf = none)
    (h1 : getBuildStats buildkiteBuilds ρ₁ Result.fresh conf "running" = (res, none))
    (h2 : getBuildStats buildkiteBuilds ρ₂ res conf "scheduled" = (res2, none)) :
    handler buildkiteBuilds putMetricData ρ₁ ρ₂ σ fuel (Except.ok conf) =
      (match chunkMetricData fuel 10 (res2.extractMetricData σ) with
        | Run.returned chunks =>
          match submitChunks putMetricData chunks ⟨["running", "scheduled"], []⟩ with
          | (some err, eff) => (Run.returned (none, some err), eff)
          | (none, eff) => (Run.returned (some res2, none), eff)
        | Run.panicked => (Run.panicked, ⟨["running", "scheduled"], []⟩)
        | Run.outOfFuel => (Run.outOfFuel, ⟨["running", "scheduled"], []⟩)) := by
  unfold handler
  simp only [h, getBuildStatsLogged, h1, h2, List.nil_append, List.singleton_append]

theorem submitChunks_fetched (putMetricData : Put) (chunks : List (List MetricDatum))
    (eff : Effects) : (submitChunks putMetricData chunks eff).2.fetched = eff.fetched := by
  induction chunks generalizing eff with
  | nil => rfl
  | cons c cs ih =>
    unfold submitChunks
    split
    · rfl
    · rw [ih]

theorem handler_fetched_running (buildkiteBuilds : Fetch) (putMetricData : Put)
    (ρ₁ ρ₂ : Nat → RangeOrder) (σ : RangeOrder) (fuel : Nat) (conf : Config)
    (h : validate conf = none) :
    (handler buildkiteBuilds putMetricData ρ₁ ρ₂ σ fuel (Except.ok conf)).2.fetched.head? =
      some "running" := by
  rcases h1 : getBuildStats buildkiteBuilds ρ₁ Result.fresh conf "running" with ⟨res, _ | err⟩
  · rcases h2 : getBuildStats buildkiteBuilds ρ₂ res conf "scheduled" with ⟨res2, _ | err⟩
    · rw [handler_of_passes _ _ _ _ _ _ _ res res2 h h1 h2]
      split
      · have hf := submitChunks_fetched putMetricData ‹_› ⟨["running", "scheduled"], []⟩
        split
        · rename_i heq
          rw [heq] at hf
          simp only at hf
          simp only [hf, List.head?_cons]
        · rename_i heq
          rw [heq] at hf
          simp only at hf
          simp only [hf, List.head?_cons]
      · rfl
      · rfl
    · rw [handler_of_scheduled_error _ _ _ _ _ _ _ res res2 err h h1 h2]
      rfl
  · rw [handler_of_running_error _ _ _ _ _ _ _ res err h h1]
    rfl

/-- C13: the handler fails at validation exactly when at least one of
`BuildkiteApiAccessToken`, `BuildkiteOrgSlug` and `Queue` is the empty string.
It then returns the validation error having made no call of `buildkiteBuilds`
and no call of `putMetricData`, whereas a configuration that passes validation
always leads to the fetch of the `"running"` builds. The errors for a missing
token, a missing organization slug and a missing queue are pairwise distinct;
with several fields missing the first of them in that order is reported. -/
theorem handler_validation (buildkiteBuilds : Fetch) (putMetricData : Put)
    (ρ₁ ρ₂ : Nat → RangeOrder) (σ : RangeOrder) (fuel : Nat) (conf : Config) :
    ((validate conf).isSome ↔
        conf.BuildkiteApiAccessToken = "" ∨ conf.BuildkiteOrgSlug = "" ∨ conf.Queue = "") ∧
      (∀ err, validate conf = some err →
        handler buildkiteBuilds putMetricData ρ₁ ρ₂ σ fuel (Except.ok conf) =
          (Run.returned (none, some err), ⟨[], []⟩)) ∧
      (validate conf = none →
        (handler buildkiteBuilds putMetricData ρ₁ ρ₂ σ fuel (Except.ok conf)).2.fetched.head? =
          some "running") ∧
      (conf.BuildkiteApiAccessToken = "" →
        validate conf = some "No BuildkiteApiAccessToken provided") ∧
      (conf.BuildkiteApiAccessToken ≠ "" → conf.BuildkiteOrgSlug = "" →
        validate conf = some "No BuildkiteOrgSlug provided") ∧
      (conf.BuildkiteApiAccessToken ≠ "" → conf.BuildkiteOrgSlug ≠ "" → conf.Queue = "" →
        validate conf = some "No Queue provided") ∧
      ("No BuildkiteApiAccessToken provided" ≠ "No BuildkiteOrgSlug provided" ∧
        "No BuildkiteApiAccessToken provided" ≠ "No Queue provided" ∧
        "No BuildkiteOrgSlug provided" ≠ "No Queue provided") := by
  refine ⟨?_, fun err h => handler_of_invalid _ _ _ _ _ _ conf err h,
    fun h => handler_fetched_running _ _ _ _ _ _ conf h, ?_, ?_, ?_, by decide⟩
  · unfold validate
    by_cases h1 : conf.BuildkiteApiAccessToken = ""
    · simp [h1]
    · by_cases h2 : conf.BuildkiteOrgSlug = ""
      · simp [h1, h2]
      · by_cases h3 : conf.Queue = ""
        · simp [h1, h2, h3]
        · simp [h1, h2, h3]
  · intro h1
    unfold validate
    rw [if_pos h1]
  · intro h1 h2
    unfold validate
    rw [if_neg h1, if_pos h2]
  · intro h1 h2 h3
    unfold validate
    rw [if_neg h1, if_neg h2, if_pos h3]

/-- C13 on an input: with an empty token the handler returns the token error
and the logs of fetches and submissions stay empty. -/
theorem handler_validation_witness :
    validate ⟨"acme", "", "ci"⟩ = some "No BuildkiteApiAccessToken provided" ∧
      handler sampleFetch samplePut (fun _ => RangeOrder.insertion)
          (fun _ => RangeOrder.insertion) RangeOrder.insertion 13 (Except.ok ⟨"acme", "", "ci"⟩) =
        (Run.returned (none, some "No BuildkiteApiAccessToken provided"), ⟨[], []⟩) :=
  ⟨rfl, (handler_validation sampleFetch samplePut (fun _ => RangeOrder.insertion)
    (fun _ => RangeOrder.insertion) RangeOrder.insertion 13 ⟨"acme", "", "ci"⟩).2.1 _ rfl⟩

/-- C14: when the fetch of the builds fails, `getBuildStats` returns that
error and leaves the `Result` exactly as it was, and the handler returns the
error with no `Result`, having extracted and submitted no metric batch: after
the one fetch when the `"running"` fetch fails, and after the two fetches when
the `"running"` pass succeeded and the `"scheduled"` fetch fails. -/
theorem fetch_failure_aborts (buildkiteBuilds : Fetch) (putMetricData : Put)
    (ρ₁ ρ₂ : Nat → RangeOrder) (σ : RangeOrder) (fuel : Nat) (conf : Config) :
    (∀ (ρ : Nat → RangeOrder) (res : Result) (stateFilter : String) (err : Error),
        buildkiteBuilds conf.BuildkiteOrgSlug conf.BuildkiteApiAccessToken stateFilter =
          Except.error err →
        getBuildStats buildkiteBuilds ρ res conf stateFilter = (res, some err)) ∧
      (validate conf = none → ∀ err,
        buildkiteBuilds conf.BuildkiteOrgSlug conf.BuildkiteApiAccessToken "running" =
          Except.error err →
        handler buildkiteBuilds putMetricData ρ₁ ρ₂ σ fuel (Except.ok conf) =
          (Run.returned (none, some err), ⟨["running"], []⟩)) ∧
      (validate conf = none → ∀ builds err,
        buildkiteBuilds conf.BuildkiteOrgSlug conf.BuildkiteApiAccessToken "running" =
          Except.ok builds →
        buildkiteBuilds conf.BuildkiteOrgSlug conf.BuildkiteApiAccessToken "scheduled" =
          Except.error err →
        handler buildkiteBuilds putMetricData ρ₁ ρ₂ σ fuel (Except.ok conf) =
          (Run.returned (none, some err), ⟨["running", "scheduled"], []⟩)) := by
  refine ⟨fun ρ res stateFilter err h => getBuildStats_of_error _ ρ res conf stateFilter err h,
    ?_, ?_⟩
  · intro hv err h
    exact handler_of_running_error _ _ _ _ _ _ conf Result.fresh err hv
      (getBuildStats_of_error _ ρ₁ Result.fresh conf "running" err h)
  · intro hv builds err h1 h2
    exact handler_of_scheduled_error _ _ _ _ _ _ conf _ _ err hv
      (getBuildStats_of_ok _ ρ₁ Result.fresh conf "running" builds h1)
      (getBuildStats_of_error _ ρ₂ _ conf "scheduled" err h2)

/-- C14 on an input: the `"running"` fetch succeeds, the `"scheduled"` fetch
fails, and the handler returns that error with nothing submitted. -/
theorem fetch_failure_aborts_witness :
    validate sampleConf = none ∧
      scheduledFailingFetch sampleConf.BuildkiteOrgSlug sampleConf.BuildkiteApiAccessToken
          "running" = Except.ok [sampleBuild, sampleOtherBuild] ∧
      scheduledFailingFetch sampleConf.BuildkiteOrgSlug sampleConf.BuildkiteApiAccessToken
          "scheduled" = Except.error "Failed to request builds" ∧
      handler scheduledFailingFetch samplePut (fun _ => RangeOrder.insertion)
          (fun _ => RangeOrder.insertion) RangeOrder.insertion 13 (Except.ok sampleConf) =
        (Run.returned (none, some "Failed to request builds"),
          ⟨["running", "scheduled"], []⟩) :=
  ⟨rfl, rfl, rfl,
    (fetch_failure_aborts scheduledFailingFetch samplePut (fun _ => RangeOrder.insertion)
      (fun _ => RangeOrder.insertion) RangeOrder.insertion 13 sampleConf).2.2 rfl _ _ rfl rfl⟩

/-! ## Job counts -/

theorem countP_allJobs (p : Job → Bool) (builds : List Build) :
    (allJobs builds).countP p = (builds.map (fun b => b.Jobs.countP p)).sum := by
  unfold allJobs
  induction builds with
  | nil => rfl
  | cons b bs ih =>
    rw [List.flatMap_cons, List.countP_append, ih, List.map_cons, List.sum_cons]

theorem length_allJobs (builds : List Build) :
    (allJobs builds).length = (builds.map (fun b => b.Jobs.length)).sum := by
  unfold allJobs
  induction builds with
  | nil => rfl
  | cons b bs ih =>
    rw [List.flatMap_cons, List.length_append, ih, List.map_cons, List.sum_cons]

theorem countP_filter_queue (s q : String) (jobs : List Job) :
    (jobs.filter (fun j => decide (j.Queue = q))).countP (fun j => decide (j.State = s)) =
      jobs.countP (fun j => decide (j.State = s ∧ j.Queue = q)) := by
  induction jobs with
  | nil => rfl
  | cons j jobs ih =>
    by_cases hq : j.Queue = q
    · by_cases hs : j.State = s
      · simp [List.filter_cons, List.countP_cons, hq, hs, ih]
      · simp [List.filter_cons, List.countP_cons, hq, hs, ih]
    · simp [List.filter_cons, List.countP_cons, hq, ih]

theorem processBuild_Counts_RunningJobs (σ : RangeOrder) (conf : Config) (res : Result)
    (b : Build) (h0 : intMin ≤ res.Counts.RunningJobs)
    (h1 : res.Counts.RunningJobs +
      ((b.Jobs.countP (fun j => decide (j.State = "running")) : Nat) : Int) ≤ intMax) :
    (processBuild σ conf res b).Counts.RunningJobs =
      res.Counts.RunningJobs +
        ((b.Jobs.countP (fun j => decide (j.State = "running")) : Nat) : Int) := by
  rw [processBuild_Counts, Counts.foldl_addJob_RunningJobs _ _
    (by rw [Counts.addBuild_RunningJobs]; exact h0)
    (by rw [Counts.addBuild_RunningJobs]; exact h1), Counts.addBuild_RunningJobs]

theorem processBuild_Counts_ScheduledJobs (σ : RangeOrder) (conf : Config) (res : Result)
    (b : Build) (h0 : intMin ≤ res.Counts.ScheduledJobs)
    (h1 : res.Counts.ScheduledJobs +
      ((b.Jobs.countP (fun j => decide (j.State = "scheduled")) : Nat) : Int) ≤ intMax) :
    (processBuild σ conf res b).Counts.ScheduledJobs =
      res.Counts.ScheduledJobs +
        ((b.Jobs.countP (fun j => decide (j.State = "scheduled")) : Nat) : Int) := by
  rw [processBuild_Counts, Counts.foldl_addJob_ScheduledJobs _ _
    (by rw [Counts.addBuild_ScheduledJobs]; exact h0)
    (by rw [Counts.addBuild_ScheduledJobs]; exact h1), Counts.addBuild_ScheduledJobs]

theorem processBuild_get_RunningJobs (σ : RangeOrder) (conf : Config) (res : Result)
    (b : Build) (q : String) (hq : q = "default" ∨ q = conf.Queue)
    (h0 : intMin ≤ (res.Queues.get q).RunningJobs)
    (h1 : (res.Queues.get q).RunningJobs +
      ((b.Jobs.countP (fun j => decide (j.State = "running" ∧ j.Queue = q)) : Nat) : Int) ≤
        intMax) :
    ((processBuild σ conf res b).Queues.get q).RunningJobs =
      (res.Queues.get q).RunningJobs +
        ((b.Jobs.countP (fun j => decide (j.State = "running" ∧ j.Queue = q)) : Nat) : Int) := by
  rw [← countP_filter_queue] at h1 ⊢
  rw [processBuild_get]
  by_cases he : ∃ j ∈ b.Jobs, j.Queue = q
  · rw [if_pos ⟨hq, he⟩, Counts.addBuild_RunningJobs,
      Counts.foldl_addJob_RunningJobs _ _ h0 h1]
  · have hnil : b.Jobs.filter (fun j => decide (j.Queue = q)) = [] := by
      rw [List.filter_eq_nil_iff]
      intro j hj hjq
      exact he ⟨j, hj, of_decide_eq_true hjq⟩
    rw [if_neg (fun h => he h.2), hnil]
    simp

theorem processBuild_get_ScheduledJobs (σ : RangeOrder) (conf : Config) (res : Result)
    (b : Build) (q : String) (hq : q = "default" ∨ q = conf.Queue)
    (h0 : intMin ≤ (res.Queues.get q).ScheduledJobs)
    (h1 : (res.Queues.get q).ScheduledJobs +
      ((b.Jobs.countP (fun j => decide (j.State = "scheduled" ∧ j.Queue = q)) : Nat) : Int) ≤
        intMax) :
    ((processBuild σ conf res b).Queues.get q).ScheduledJobs =
      (res.Queues.get q).ScheduledJobs +
        ((b.Jobs.countP (fun j => decide (j.State = "scheduled" ∧ j.Queue = q)) : Nat) : Int) := by
  rw [← countP_filter_queue] at h1 ⊢
  rw [processBuild_get]
  by_cases he : ∃ j ∈ b.Jobs, j.Queue = q
  · rw [if_pos ⟨hq, he⟩, Counts.addBuild_ScheduledJobs,
      Counts.foldl_addJob_ScheduledJobs _ _ h0 h1]
  · have hnil : b.Jobs.filter (fun j => decide (j.Queue = q)) = [] := by
      rw [List.filter_eq_nil_iff]
      intro j hj hjq
      exact he ⟨j, hj, of_decide_eq_true hjq⟩
    rw [if_neg (fun h => he h.2), hnil]
    simp

theorem aggregate_get_untracked (ρ : Nat → RangeOrder) (conf : Config) (res : Result)
    (builds : List Build) (q : String) (hq : ¬ (q = "default" ∨ q = conf.Queue)) :
    (aggregate ρ conf res builds).Queues.get q = res.Queues.get q := by
  induction builds generalizing res ρ with
  | nil => rfl
  | cons b bs ih =>
    unfold aggregate
    rw [ih, processBuild_get, if_neg (fun h => hq h.1)]

theorem aggregate_Counts_RunningBuilds (ρ : Nat → RangeOrder) (conf : Config) (res : Result)
    (builds : List Build) (h0 : intMin ≤ res.Counts.RunningBuilds)
    (h1 : res.Counts.RunningBuilds +
      ((builds.countP (fun b => decide (b.State = "running")) : Nat) : Int) ≤ intMax) :
    (aggregate ρ conf res builds).Counts.RunningBuilds =
      res.Counts.RunningBuilds +
        ((builds.countP (fun b => decide (b.State = "running")) : Nat) : Int) := by
  have h := aggregate_counter conf (fun r => r.Counts.RunningBuilds)
    (fun b => if decide (b.State = "running") = true then 1 else 0)
    (fun σ res b h0 h1 => by
      simp only [processBuild_Counts, Counts.foldl_addJob_RunningBuilds,
        Counts.addBuild_RunningBuilds]
      exact ite_incr_eq _ _ h0 h1)
    ρ res builds h0 (by rw [sum_map_indicator]; exact h1)
  rw [sum_map_indicator] at h
  exact h

theorem aggregate_Counts_ScheduledBuilds (ρ : Nat → RangeOrder) (conf : Config) (res : Result)
    (builds : List Build) (h0 : intMin ≤ res.Counts.ScheduledBuilds)
    (h1 : res.Counts.ScheduledBuilds +
      ((builds.countP (fun b => decide (b.State = "scheduled")) : Nat) : Int) ≤ intMax) :
    (aggregate ρ conf res builds).Counts.ScheduledBuilds =
      res.Counts.ScheduledBuilds +
        ((builds.countP (fun b => decide (b.State = "scheduled")) : Nat) : Int) := by
  have h := aggregate_counter conf (fun r => r.Counts.ScheduledBuilds)
    (fun b => if decide (b.State = "scheduled") = true then 1 else 0)
    (fun σ res b h0 h1 => by
      simp only [processBuild_Counts, Counts.foldl_addJob_ScheduledBuilds,
        Counts.addBuild_ScheduledBuilds]
      exact ite_incr_eq _ _ h0 h1)
    ρ res builds h0 (by rw [sum_map_indicator]; exact h1)
  rw [sum_map_indicator] at h
  exact h

theorem aggregate_Counts_RunningJobs (ρ : Nat → RangeOrder) (conf : Config) (res : Result)
    (builds : List Build) (h0 : intMin ≤ res.Counts.RunningJobs)
    (h1 : res.Counts.RunningJobs +
      (((allJobs builds).countP (fun j => decide (j.State = "running")) : Nat) : Int) ≤
        intMax) :
    (aggregate ρ conf res builds).Counts.RunningJobs =
      res.Counts.RunningJobs +
        (((allJobs builds).countP (fun j => decide (j.State = "running")) : Nat) : Int) := by
  rw [countP_allJobs] at h1 ⊢
  have h := aggregate_counter conf (fun r => r.Counts.RunningJobs)
    (fun b => b.Jobs.countP (fun j => decide (j.State = "running")))
    (fun σ res b h0 h1 => processBuild_Counts_RunningJobs σ conf res b h0 h1)
    ρ res builds
  simp only at h
  exact h h0 h1

theorem aggregate_Counts_ScheduledJobs (ρ : Nat → RangeOrder) (conf : Config) (res : Result)
    (builds : List Build) (h0 : intMin ≤ res.Counts.ScheduledJobs)
    (h1 : res.Counts.ScheduledJobs +
      (((allJobs builds).countP (fun j => decide (j.State = "scheduled")) : Nat) : Int) ≤
        intMax) :
    (aggregate ρ conf res builds).Counts.ScheduledJobs =
      res.Counts.ScheduledJobs +
        (((allJobs builds).countP (fun j => decide (j.State = "scheduled")) : Nat) : Int) := by
  rw [countP_allJobs] at h1 ⊢
  have h := aggregate_counter conf (fun r => r.Counts.ScheduledJobs)
    (fun b => b.Jobs.countP (fun j => decide (j.State = "scheduled")))
    (fun σ res b h0 h1 => processBuild_Counts_ScheduledJobs σ conf res b h0 h1)
    ρ res builds
  simp only at h
  exact h h0 h1

theorem aggregate_get_RunningBuilds (ρ : Nat → RangeOrder) (conf : Config) (res : Result)
    (builds : List Build) (q : String) (hq : q = "default" ∨ q = conf.Queue)
    (h0 : intMin ≤ (res.Queues.get q).RunningBuilds)
    (h1 : (res.Queues.get q).RunningBuilds +
      ((builds.countP
        (fun b => decide (b.State = "running" ∧ ∃ j ∈ b.Jobs, j.Queue = q)) : Nat) : Int) ≤
        intMax) :
    ((aggregate ρ conf res builds).Queues.get q).RunningBuilds =
      (res.Queues.get q).RunningBuilds +
        ((builds.countP
          (fun b => decide (b.State = "running" ∧ ∃ j ∈ b.Jobs, j.Queue = q)) : Nat) : Int) := by
  have h := aggregate_counter conf (fun r => (r.Queues.get q).RunningBuilds)
    (fun b => if decide (b.State = "running" ∧ ∃ j ∈ b.Jobs, j.Queue = q) = true then 1 else 0)
    (fun σ res b h0 h1 => by
      simp only [processBuild_get_RunningBuilds, hq, true_and]
      exact ite_incr_eq _ _ h0 h1)
    ρ res builds h0 (by rw [sum_map_indicator]; exact h1)
  rw [sum_map_indicator] at h
  exact h

theorem aggregate_get_ScheduledBuilds (ρ : Nat → RangeOrder) (conf : Config) (res : Result)
    (builds : List Build) (q : String) (hq : q = "default" ∨ q = conf.Queue)
    (h0 : intMin ≤ (res.Queues.get q).ScheduledBuilds)
    (h1 : (res.Queues.get q).ScheduledBuilds +
      ((builds.countP
        (fun b => decide (b.State = "scheduled" ∧ ∃ j ∈ b.Jobs, j.Queue = q)) : Nat) : Int) ≤
        intMax) :
    ((aggregate ρ conf res builds).Queues.get q).ScheduledBuilds =
      (res.Queues.get q).ScheduledBuilds +
        ((builds.countP
          (fun b => decide (b.State = "scheduled" ∧ ∃ j ∈ b.Jobs, j.Queue = q)) : Nat) : Int) := by
  have h := aggregate_counter conf (fun r => (r.Queues.get q).ScheduledBuilds)
    (fun b => if decide (b.State = "scheduled" ∧ ∃ j ∈ b.Jobs, j.Queue = q) = true then 1 else 0)
    (fun σ res b h0 h1 => by
      simp only [processBuild_get_ScheduledBuilds, hq, true_and]
      exact ite_incr_eq _ _ h0 h1)
    ρ res builds h0 (by rw [sum_map_indicator]; exact h1)
  rw [sum_map_indicator] at h
  exact h

theorem aggregate_get_RunningJobs (ρ : Nat → RangeOrder) (conf : Config) (res : Result)
    (builds : List Build) (q : String) (hq : q = "default" ∨ q = conf.Queue)
    (h0 : intMin ≤ (res.Queues.get q).RunningJobs)
    (h1 : (res.Queues.get q).RunningJobs +
      (((allJobs builds).countP
        (fun j => decide (j.State = "running" ∧ j.Queue = q)) : Nat) : Int) ≤ intMax) :
    ((aggregate ρ conf res builds).Queues.get q).RunningJobs =
      (res.Queues.get q).RunningJobs +
        (((allJobs builds).countP
          (fun j => decide (j.State = "running" ∧ j.Queue = q)) : Nat) : Int) := by
  rw [countP_allJobs] at h1 ⊢
  have h := aggregate_counter conf (fun r => (r.Queues.get q).RunningJobs)
    (fun b => b.Jobs.countP (fun j => decide (j.State = "running" ∧ j.Queue = q)))
    (fun σ res b h0 h1 => processBuild_get_RunningJobs σ conf res b q hq h0 h1)
    ρ res builds
  simp only at h
  exact h h0 h1

theorem aggregate_get_ScheduledJobs (ρ : Nat → RangeOrder) (conf : Config) (res : Result)
    (builds : List Build) (q : String) (hq : q = "default" ∨ q = conf.Queue)
    (h0 : intMin ≤ (res.Queues.get q).ScheduledJobs)
    (h1 : (res.Queues.get q).ScheduledJobs +
      (((allJobs builds).countP
        (fun j => decide (j.State = "scheduled" ∧ j.Queue = q)) : Nat) : Int) ≤ intMax) :
    ((aggregate ρ conf res builds).Queues.get q).ScheduledJobs =
      (res.Queues.get q).ScheduledJobs +
        (((allJobs builds).countP
          (fun j => decide (j.State = "scheduled" ∧ j.Queue = q)) : Nat) : Int) := by
  rw [countP_allJobs] at h1 ⊢
  have h := aggregate_counter conf (fun r => (r.Queues.get q).ScheduledJobs)
    (fun b => b.Jobs.countP (fun j => decide (j.State = "scheduled" ∧ j.Queue = q)))
    (fun σ res b h0 h1 => processBuild_get_ScheduledJobs σ conf res b q hq h0 h1)
    ρ res builds
  simp only at h
  exact h h0 h1

/-- C17: over any list of builds, after the aggregation loop of
`getBuildStats` run from a fresh `Result`, the global `RunningJobs` is the
total number of jobs in state `"running"` over all the builds and the global
`ScheduledJobs` the total number of jobs in state `"scheduled"`, whatever the
queue of a job and whatever the state of the build that holds it. The
hypothesis bounds the number of jobs by the largest `int`. -/
theorem aggregate_global_job_counts (ρ : Nat → RangeOrder) (conf : Config)
    (builds : List Build) (hlen : ((allJobs builds).length : Int) ≤ intMax) :
    (aggregate ρ conf Result.fresh builds).Counts.RunningJobs =
        (allJobs builds).countP (fun j => decide (j.State = "running")) ∧
      (aggregate ρ conf Result.fresh builds).Counts.ScheduledJobs =
        (allJobs builds).countP (fun j => decide (j.State = "scheduled")) := by
  have hr := List.countP_le_length (fun j : Job => decide (j.State = "running"))
    (l := allJobs builds)
  have hs := List.countP_le_length (fun j : Job => decide (j.State = "scheduled"))
    (l := allJobs builds)
  have h0 : intMin ≤ (0 : Int) := by decide
  constructor
  · have h := aggregate_Counts_RunningJobs ρ conf Result.fresh builds h0
      (by
        show (0 : Int) + _ ≤ intMax
        omega)
    rw [h]
    show (0 : Int) + _ = _
    omega
  · have h := aggregate_Counts_ScheduledJobs ρ conf Result.fresh builds h0
      (by
        show (0 : Int) + _ ≤ intMax
        omega)
    rw [h]
    show (0 : Int) + _ = _
    omega

/-- Witness of C17 on the two sample builds: three running jobs, one of them
on an untracked queue inside a scheduled build. -/
theorem aggregate_global_job_counts_witness :
    ((allJobs [sampleBuild, sampleOtherBuild]).length : Int) ≤ intMax ∧
      (aggregate (fun _ => RangeOrder.insertion) sampleConf Result.fresh
        [sampleBuild, sampleOtherBuild]).Counts.RunningJobs = 3 ∧
      (aggregate (fun _ => RangeOrder.insertion) sampleConf Result.fresh
        [sampleBuild, sampleOtherBuild]).Counts.ScheduledJobs = 3 :=
  ⟨by decide,
    (aggregate_global_job_counts (fun _ => RangeOrder.insertion) sampleConf
      [sampleBuild, sampleOtherBuild] (by decide)).1.trans (by decide),
    (aggregate_global_job_counts (fun _ => RangeOrder.insertion) sampleConf
      [sampleBuild, sampleOtherBuild] (by decide)).2.trans (by decide)⟩

/-- C18: over any list of builds, after the aggregation loop of
`getBuildStats` run from a fresh `Result`, for each queue `q` among
`"default"` and the configured queue the per-queue `RunningJobs` (resp.
`ScheduledJobs`) of `q` is the number of jobs, over all the builds, whose state
is `"running"` (resp. `"scheduled"`) and whose effective queue is `q`. The
hypothesis on the length bounds the number of jobs by the largest `int`. -/
theorem aggregate_queue_job_counts (ρ : Nat → RangeOrder) (conf : Config)
    (builds : List Build) (q : String) (hq : q = "default" ∨ q = conf.Queue)
    (hlen : ((allJobs builds).length : Int) ≤ intMax) :
    ((aggregate ρ conf Result.fresh builds).Queues.get q).RunningJobs =
        (allJobs builds).countP (fun j => decide (j.State = "running" ∧ j.Queue = q)) ∧
      ((aggregate ρ conf Result.fresh builds).Queues.get q).ScheduledJobs =
        (allJobs builds).countP (fun j => decide (j.State = "scheduled" ∧ j.Queue = q)) := by
  have hr := List.countP_le_length
    (fun j : Job => decide (j.State = "running" ∧ j.Queue = q)) (l := allJobs builds)
  have hs := List.countP_le_length
    (fun j : Job => decide (j.State = "scheduled" ∧ j.Queue = q)) (l := allJobs builds)
  have h0 : intMin ≤ (0 : Int) := by decide
  constructor
  · have h := aggregate_get_RunningJobs ρ conf Result.fresh builds q hq h0
      (by
        show (0 : Int) + _ ≤ intMax
        omega)
    rw [h]
    show (0 : Int) + _ = _
    omega
  · have h := aggregate_get_ScheduledJobs ρ conf Result.fresh builds q hq h0
      (by
        show (0 : Int) + _ ≤ intMax
        omega)
    rw [h]
    show (0 : Int) + _ = _
    omega

/-- Witness of C18 on the queue `"default"`: the one job without an explicit
queue is scheduled. -/
theorem aggregate_queue_job_counts_witness :
    ("default" = "default" ∨ "default" = sampleConf.Queue) ∧
      ((allJobs [sampleBuild, sampleOtherBuild]).length : Int) ≤ intMax ∧
      ((aggregate (fun _ => RangeOrder.reversed) sampleConf Result.fresh
        [sampleBuild, sampleOtherBuild]).Queues.get "default").RunningJobs = 0 ∧
      ((aggregate (fun _ => RangeOrder.reversed) sampleConf Result.fresh
        [sampleBuild, sampleOtherBuild]).Queues.get "default").ScheduledJobs = 1 :=
  ⟨by decide, by decide,
    (aggregate_queue_job_counts (fun _ => RangeOrder.reversed) sampleConf
      [sampleBuild, sampleOtherBuild] "default" (by decide) (by decide)).1.trans (by decide),
    (aggregate_queue_job_counts (fun _ => RangeOrder.reversed) sampleConf
      [sampleBuild, sampleOtherBuild] "default" (by decide) (by decide)).2.trans (by decide)⟩

/-! ## Per-queue counters against the global ones -/

theorem countP_two_queues_le (s a b : String) (hab : a ≠ b) (jobs : List Job) :
    jobs.countP (fun j => decide (j.State = s ∧ j.Queue = a)) +
        jobs.countP (fun j => decide (j.State = s ∧ j.Queue = b)) ≤
      jobs.countP (fun j => decide (j.State = s)) := by
  have hba : ¬ b = a := fun h => hab h.symm
  induction jobs with
  | nil => simp
  | cons j jobs ih =>
    simp only [List.countP_cons]
    by_cases hs : j.State = s
    · by_cases ha : j.Queue = a
      · simp [hs, ha, hab] at ih ⊢
        omega
      · by_cases hb : j.Queue = b
        · simp [hs, hb, hba] at ih ⊢
          omega
        · simp [hs, ha, hb] at ih ⊢
          omega
    · simp [hs] at ih ⊢
      omega

/-- The eight counters after the loop run from a fresh `Result`, when neither
the builds nor the jobs outnumber the largest `int`. -/
theorem aggregate_fresh_counts (ρ : Nat → RangeOrder) (conf : Config) (builds : List Build)
    (hb : (builds.length : Int) ≤ intMax) (hj : ((allJobs builds).length : Int) ≤ intMax) :
    ((aggregate ρ conf Result.fresh builds).Counts.RunningBuilds =
        builds.countP (fun b => decide (b.State = "running")) ∧
      (aggregate ρ conf Result.fresh builds).Counts.ScheduledBuilds =
        builds.countP (fun b => decide (b.State = "scheduled")) ∧
      (aggregate ρ conf Result.fresh builds).Counts.RunningJobs =
        (allJobs builds).countP (fun j => decide (j.State = "running")) ∧
      (aggregate ρ conf Result.fresh builds).Counts.ScheduledJobs =
        (allJobs builds).countP (fun j => decide (j.State = "scheduled"))) ∧
      ∀ q, q = "default" ∨ q = conf.Queue →
        ((aggregate ρ conf Result.fresh builds).Queues.get q).RunningBuilds =
            builds.countP
              (fun b => decide (b.State = "running" ∧ ∃ j ∈ b.Jobs, j.Queue = q)) ∧
          ((aggregate ρ conf Result.fresh builds).Queues.get q).ScheduledBuilds =
            builds.countP
              (fun b => decide (b.State = "scheduled" ∧ ∃ j ∈ b.Jobs, j.Queue = q)) ∧
          ((aggregate ρ conf Result.fresh builds).Queues.get q).RunningJobs =
            (allJobs builds).countP (fun j => decide (j.State = "running" ∧ j.Queue = q)) ∧
          ((aggregate ρ conf Result.fresh builds).Queues.get q).ScheduledJobs =
            (allJobs builds).countP (fun j => decide (j.State = "scheduled" ∧ j.Queue = q)) := by
  have h0 : intMin ≤ (0 : Int) := by decide
  have e : ∀ (x : Int), (0 : Int) + x = x := fun x => by omega
  have b1 := List.countP_le_length (fun b : Build => decide (b.State = "running")) (l := builds)
  have b2 := List.countP_le_length (fun b : Build => decide (b.State = "scheduled"))
    (l := builds)
  have j1 := List.countP_le_length (fun j : Job => decide (j.State = "running"))
    (l := allJobs builds)
  have j2 := List.countP_le_length (fun j : Job => decide (j.State = "scheduled"))
    (l := allJobs builds)
  refine ⟨⟨?_, ?_, ?_, ?_⟩, ?_⟩
  · rw [aggregate_Counts_RunningBuilds ρ conf Result.fresh builds h0
      (by show (0 : Int) + _ ≤ intMax; omega)]
    exact e _
  · rw [aggregate_Counts_ScheduledBuilds ρ conf Result.fresh builds h0
      (by show (0 : Int) + _ ≤ intMax; omega)]
    exact e _
  · rw [aggregate_Counts_RunningJobs ρ conf Result.fresh builds h0
      (by show (0 : Int) + _ ≤ intMax; omega)]
    exact e _
  · rw [aggregate_Counts_ScheduledJobs ρ conf Result.fresh builds h0
      (by show (0 : Int) + _ ≤ intMax; omega)]
    exact e _
  · intro q hq
    have q1 := List.countP_le_length
      (fun b : Build => decide (b.State = "running" ∧ ∃ j ∈ b.Jobs, j.Queue = q)) (l := builds)
    have q2 := List.countP_le_length
      (fun b : Build => decide (b.State = "scheduled" ∧ ∃ j ∈ b.Jobs, j.Queue = q))
      (l := builds)
    have q3 := List.countP_le_length
      (fun j : Job => decide (j.State = "running" ∧ j.Queue = q)) (l := allJobs builds)
    have q4 := List.countP_le_length
      (fun j : Job => decide (j.State = "scheduled" ∧ j.Queue = q)) (l := allJobs builds)
    refine ⟨?_, ?_, ?_, ?_⟩
    · rw [aggregate_get_RunningBuilds ρ conf Result.fresh builds q hq h0
        (by show (0 : Int) + _ ≤ intMax; omega)]
      exact e _
    · rw [aggregate_get_ScheduledBuilds ρ conf Result.fresh builds q hq h0
        (by show (0 : Int) + _ ≤ intMax; omega)]
      exact e _
    · rw [aggregate_get_RunningJobs ρ conf Result.fresh builds q hq h0
        (by show (0 : Int) + _ ≤ intMax; omega)]
      exact e _
    · rw [aggregate_get_ScheduledJobs ρ conf Result.fresh builds q hq h0
        (by show (0 : Int) + _ ≤ intMax; omega)]
      exact e _

/-- C20: after the aggregation loop of `getBuildStats` run from a fresh
`Result`, each of the four counters read for any queue is at most the
corresponding global counter, and when the configured queue differs from
`"default"` the `RunningJobs` (resp. `ScheduledJobs`) of the two queues
together are at most the global `RunningJobs` (resp. `ScheduledJobs`). The
hypotheses bound the numbers of builds and of jobs by the largest `int`. -/
theorem aggregate_queue_le_global (ρ : Nat → RangeOrder) (conf : Config) (builds : List Build)
    (hb : (builds.length : Int) ≤ intMax) (hj : ((allJobs builds).length : Int) ≤ intMax) :
    (∀ q,
      ((aggregate ρ conf Result.fresh builds).Queues.get q).RunningBuilds ≤
          (aggregate ρ conf Result.fresh builds).Counts.RunningBuilds ∧
        ((aggregate ρ conf Result.fresh builds).Queues.get q).ScheduledBuilds ≤
          (aggregate ρ conf Result.fresh builds).Counts.ScheduledBuilds ∧
        ((aggregate ρ conf Result.fresh builds).Queues.get q).RunningJobs ≤
          (aggregate ρ conf Result.fresh builds).Counts.RunningJobs ∧
        ((aggregate ρ conf Result.fresh builds).Queues.get q).ScheduledJobs ≤
          (aggregate ρ conf Result.fresh builds).Counts.ScheduledJobs) ∧
      (conf.Queue ≠ "default" →
        ((aggregate ρ conf Result.fresh builds).Queues.get "default").RunningJobs +
            ((aggregate ρ conf Result.fresh builds).Queues.get conf.Queue).RunningJobs ≤
          (aggregate ρ conf Result.fresh builds).Counts.RunningJobs ∧
        ((aggregate ρ conf Result.fresh builds).Queues.get "default").ScheduledJobs +
            ((aggregate ρ conf Result.fresh builds).Queues.get conf.Queue).ScheduledJobs ≤
          (aggregate ρ conf Result.fresh builds).Counts.ScheduledJobs) := by
  obtain ⟨⟨g1, g2, g3, g4⟩, hq⟩ := aggregate_fresh_counts ρ conf builds hb hj
  constructor
  · intro q
    by_cases ht : q = "default" ∨ q = conf.Queue
    · obtain ⟨p1, p2, p3, p4⟩ := hq q ht
      rw [g1, g2, g3, g4, p1, p2, p3, p4]
      refine ⟨?_, ?_, ?_, ?_⟩
      · exact_mod_cast List.countP_mono_left (fun b _ h => by
          simp only [decide_eq_true_eq] at h ⊢
          exact h.1)
      · exact_mod_cast List.countP_mono_left (fun b _ h => by
          simp only [decide_eq_true_eq] at h ⊢
          exact h.1)
      · exact_mod_cast List.countP_mono_left (fun b _ h => by
          simp only [decide_eq_true_eq] at h ⊢
          exact h.1)
      · exact_mod_cast List.countP_mono_left (fun b _ h => by
          simp only [decide_eq_true_eq] at h ⊢
          exact h.1)
    · rw [aggregate_get_untracked ρ conf Result.fresh builds q ht, g1, g2, g3, g4]
      refine ⟨?_, ?_, ?_, ?_⟩ <;>
      · show (0 : Int) ≤ _
        exact Int.ofNat_nonneg _
  · intro hne
    obtain ⟨_, _, d3, d4⟩ := hq "default" (Or.inl rfl)
    obtain ⟨_, _, c3, c4⟩ := hq conf.Queue (Or.inr rfl)
    rw [g3, g4, d3, d4, c3, c4]
    constructor
    · exact_mod_cast countP_two_queues_le "running" "default" conf.Queue
        (fun h => hne h.symm) (allJobs builds)
    · exact_mod_cast countP_two_queues_le "scheduled" "default" conf.Queue
        (fun h => hne h.symm) (allJobs builds)

/-- Witness of C20 on the two sample builds and the queue `"ci"`. -/
theorem aggregate_queue_le_global_witness :
    (([sampleBuild, sampleOtherBuild].length : Nat) : Int) ≤ intMax ∧
      ((allJobs [sampleBuild, sampleOtherBuild]).length : Int) ≤ intMax ∧
      sampleConf.Queue ≠ "default" ∧
      ((aggregate (fun _ => RangeOrder.insertion) sampleConf Result.fresh
          [sampleBuild, sampleOtherBuild]).Queues.get "default").RunningJobs +
        ((aggregate (fun _ => RangeOrder.insertion) sampleConf Result.fresh
          [sampleBuild, sampleOtherBuild]).Queues.get sampleConf.Queue).RunningJobs ≤
        (aggregate (fun _ => RangeOrder.insertion) sampleConf Result.fresh
          [sampleBuild, sampleOtherBuild]).Counts.RunningJobs :=
  ⟨by decide, by decide, by decide,
    ((aggregate_queue_le_global (fun _ => RangeOrder.insertion) sampleConf
      [sampleBuild, sampleOtherBuild] (by decide) (by decide)).2 (by decide)).1⟩

/-! ## Independence from the iteration order -/

theorem Result.eq_of (r1 r2 : Result) (hc : r1.Counts = r2.Counts)
    (hq : r1.Queues.entries = r2.Queues.entries) : r1 = r2 := by
  cases r1 with
  | mk c1 q1 =>
    cases r2 with
    | mk c2 q2 =>
      simp only at hc hq
      rw [hc, GoMap.eq_of_entries q1 q2 hq]

theorem map_id_of_not_mem {V : Type} (f : V → V) (k : String) (es : List (String × V))
    (h : k ∉ es.map Prod.fst) :
    es.map (fun e => if e.1 = k then (e.1, f e.2) else e) = es := by
  induction es with
  | nil => rfl
  | cons e es ih =>
    have h1 : ¬ e.1 = k := fun h2 => h (by simp [h2])
    have h3 : k ∉ es.map Prod.fst := fun h2 => h (by
      simp only [List.map_cons]
      exact List.mem_cons_of_mem _ h2)
    simp only [List.map_cons, h1, if_false, ih h3]

theorem setEntries_eq_map {V : Type} [Inhabited V] (f : V → V) (k : String)
    (es : List (String × V)) (hk : k ∈ es.map Prod.fst) (hnd : (es.map Prod.fst).Nodup) :
    setEntries k (f (getEntries k es)) es =
      es.map (fun e => if e.1 = k then (e.1, f e.2) else e) := by
  induction es with
  | nil => simp at hk
  | cons e es ih =>
    simp only [List.map_cons, List.nodup_cons] at hnd
    by_cases h : e.1 = k
    · have hnot : k ∉ es.map Prod.fst := by
        rw [← h]
        exact hnd.1
      simp only [setEntries, getEntries, h, if_true, List.map_cons, map_id_of_not_mem f k es hnot]
    · have hk2 : k ∈ es.map Prod.fst := by
        simp only [List.map_cons, List.mem_cons] at hk
        rcases hk with hk | hk
        · exact absurd hk.symm h
        · exact hk
      simp only [setEntries, getEntries, h, if_false, List.map_cons, ih hk2 hnd.2]

theorem foldl_queueStep_entries (build : Build) (ks : List String) (res : Result)
    (hnd : ks.Nodup) (hks : ∀ k ∈ ks, k ∈ res.Queues.keys) :
    (ks.foldl (queueStep build) res).Queues.entries =
      res.Queues.entries.map (fun e => if e.1 ∈ ks then (e.1, e.2.addBuild build) else e) := by
  induction ks generalizing res with
  | nil => simp
  | cons k ks ih =>
    have hk : k ∉ ks := (List.nodup_cons.mp hnd).1
    have hstep : (queueStep build res k).Queues.entries =
        res.Queues.entries.map (fun e => if e.1 = k then (e.1, e.2.addBuild build) else e) :=
      setEntries_eq_map (fun c : Counts => c.addBuild build) k res.Queues.entries
        (hks k (List.mem_cons_self k ks)) res.Queues.nodup
    have hkeys : (queueStep build res k).Queues.keys = res.Queues.keys := by
      unfold GoMap.keys
      rw [hstep, List.map_map]
      apply List.map_congr_left
      intro e _
      simp only [Function.comp]
      split <;> rfl
    rw [List.foldl_cons, ih (queueStep build res k) (List.nodup_cons.mp hnd).2
      (fun k2 hk2 => by
        rw [hkeys]
        exact hks k2 (List.mem_cons_of_mem k hk2)), hstep, List.map_map]
    apply List.map_congr_left
    intro e _
    simp only [Function.comp, List.mem_cons]
    by_cases h1 : e.1 = k
    · have h2 : e.1 ∉ ks := by
        rw [h1]
        exact hk
      simp [h1, hk]
    · simp [h1]

theorem queueLoop_order_irrelevant (σ σ2 : RangeOrder) (b : Build) (res : Result)
    (touched : GoMap Int) (hsub : ∀ k ∈ touched.keys, k ∈ res.Queues.keys) :
    (σ.order touched.keys).foldl (queueStep b) res =
      (σ2.order touched.keys).foldl (queueStep b) res := by
  apply Result.eq_of
  · rw [foldl_queueStep_Counts, foldl_queueStep_Counts]
  · rw [foldl_queueStep_entries b (σ.order touched.keys) res
        ((σ.perm _).nodup_iff.mpr touched.nodup)
        (fun k hk => hsub k ((σ.perm _).mem_iff.mp hk)),
      foldl_queueStep_entries b (σ2.order touched.keys) res
        ((σ2.perm _).nodup_iff.mpr touched.nodup)
        (fun k hk => hsub k ((σ2.perm _).mem_iff.mp hk))]
    apply List.map_congr_left
    intro e _
    simp only [(σ.perm _).mem_iff, (σ2.perm _).mem_iff]

theorem processBuild_order_irrelevant (σ σ2 : RangeOrder) (conf : Config) (res : Result)
    (b : Build) : processBuild σ conf res b = processBuild σ2 conf res b := by
  have hsub : ∀ k ∈ (b.Jobs.foldl (jobStep conf)
      ({ res with Counts := res.Counts.addBuild b }, GoMap.empty)).2.keys,
      k ∈ (b.Jobs.foldl (jobStep conf)
        ({ res with Counts := res.Counts.addBuild b }, GoMap.empty)).1.Queues.keys := by
    intro k hk
    rw [foldl_jobStep_touched] at hk
    rw [foldl_jobStep_keys]
    rcases hk with hk | hk
    · simp [GoMap.keys_empty] at hk
    · exact Or.inr hk
  unfold processBuild
  dsimp only
  exact queueLoop_order_irrelevant σ σ2 b _ _ hsub

theorem aggregate_order_irrelevant (ρ ρ2 : Nat → RangeOrder) (conf : Config) (res : Result)
    (builds : List Build) : aggregate ρ conf res builds = aggregate ρ2 conf res builds := by
  induction builds generalizing res ρ ρ2 with
  | nil => rfl
  | cons b bs ih =>
    unfold aggregate
    rw [processBuild_order_irrelevant (ρ 0) (ρ2 0), ih (fun n => ρ (n + 1)) (fun n => ρ2 (n + 1))]

theorem aggregate_append (ρ : Nat → RangeOrder) (conf : Config) (res : Result)
    (as bs : List Build) :
    aggregate ρ conf res (as ++ bs) =
      aggregate (fun n => ρ (n + as.length)) conf (aggregate ρ conf res as) bs := by
  induction as generalizing res ρ with
  | nil => rfl
  | cons a as ih =>
    have h1 : aggregate ρ conf res (a :: as ++ bs) =
        aggregate (fun n => ρ (n + 1)) conf (processBuild (ρ 0) conf res a) (as ++ bs) := by
      rw [List.cons_append, aggregate]
    have h2 : aggregate ρ conf res (a :: as) =
        aggregate (fun n => ρ (n + 1)) conf (processBuild (ρ 0) conf res a) as := by
      rw [aggregate]
    rw [h1, h2, ih]
    apply aggregate_order_irrelevant

/-- C16: two runs of the aggregation loop of `getBuildStats` over one list of
builds, each from a fresh `Result`, give the same `Result`, that is the same
global `Counts` and the same `Queues` map, whatever the orders in which the two
runs iterate the `buildQueues` map of each build. -/
theorem aggregate_deterministic (ρ ρ2 : Nat → RangeOrder) (conf : Config)
    (builds : List Build) :
    aggregate ρ conf Result.fresh builds = aggregate ρ2 conf Result.fresh builds ∧
      (aggregate ρ conf Result.fresh builds).Counts =
        (aggregate ρ2 conf Result.fresh builds).Counts ∧
      (aggregate ρ conf Result.fresh builds).Queues =
        (aggregate ρ2 conf Result.fresh builds).Queues := by
  have h := aggregate_order_irrelevant ρ ρ2 conf Result.fresh builds
  exact ⟨h, by rw [h], by rw [h]⟩

/-! ## Two passes on one shared `Result` -/

theorem processBuild_congr (σ σ2 : RangeOrder) (conf : Config) (r1 r2 : Result) (b : Build)
    (hc : r1.Counts = r2.Counts) (hg : ∀ q, r1.Queues.get q = r2.Queues.get q) :
    (processBuild σ conf r1 b).Counts = (processBuild σ2 conf r2 b).Counts ∧
      ∀ q, (processBuild σ conf r1 b).Queues.get q = (processBuild σ2 conf r2 b).Queues.get q := by
  constructor
  · rw [processBuild_Counts, processBuild_Counts, hc]
  · intro q
    rw [processBuild_get, processBuild_get, hg q]

theorem aggregate_congr (ρ ρ2 : Nat → RangeOrder) (conf : Config) (r1 r2 : Result)
    (builds : List Build) (hc : r1.Counts = r2.Counts)
    (hg : ∀ q, r1.Queues.get q = r2.Queues.get q) :
    (aggregate ρ conf r1 builds).Counts = (aggregate ρ2 conf r2 builds).Counts ∧
      ∀ q, (aggregate ρ conf r1 builds).Queues.get q =
        (aggregate ρ2 conf r2 builds).Queues.get q := by
  induction builds generalizing r1 r2 ρ ρ2 with
  | nil => exact ⟨hc, hg⟩
  | cons b bs ih =>
    have hstep := processBuild_congr (ρ 0) (ρ2 0) conf r1 r2 b hc hg
    unfold aggregate
    exact ih (fun n => ρ (n + 1)) (fun n => ρ2 (n + 1)) _ _ hstep.1 hstep.2

theorem getBuildStats_keys (buildkiteBuilds : Fetch) (ρ : Nat → RangeOrder) (res : Result)
    (conf : Config) (stateFilter : String) (builds : List Build)
    (hfetch : buildkiteBuilds conf.BuildkiteOrgSlug conf.BuildkiteApiAccessToken stateFilter =
      Except.ok builds) (k : String) :
    k ∈ (getBuildStats buildkiteBuilds ρ res conf stateFilter).1.Queues.keys ↔
      k ∈ res.Queues.keys ∨ k = "default" ∨ k = conf.Queue := by
  rw [(getBuildStats_ok buildkiteBuilds ρ res conf stateFilter builds hfetch).2.2.2 k,
    aggregate_keys]
  have key : ∀ (A T E : Prop), ((A ∨ (T ∧ E)) ∨ T) ↔ (A ∨ T) := by
    intro A T E
    tauto
  exact key _ _ _

/-- C19: the aggregation loop of `getBuildStats` run over `A` and then over
`B` on one shared `Result` gives the same `Result` (global `Counts` and
`Queues` map) as one run over `A ++ B` from the same starting `Result`,
whatever the iteration orders. So do the two calls of `getBuildStats` the
handler makes, compared with one call that fetches `A ++ B`: same `Counts`,
same value for every queue, same keys. The state filter reaches only the
fetch: two filters for which the fetch answers alike give the same outcome. -/
theorem aggregate_two_passes (ρ₁ ρ₂ ρ : Nat → RangeOrder) (conf : Config) (res : Result)
    (A B : List Build) :
    aggregate ρ₂ conf (aggregate ρ₁ conf res A) B = aggregate ρ conf res (A ++ B) ∧
      (∀ (fetch fetchAll : Fetch) (stateFilter : String),
        fetch conf.BuildkiteOrgSlug conf.BuildkiteApiAccessToken "running" = Except.ok A →
        fetch conf.BuildkiteOrgSlug conf.BuildkiteApiAccessToken "scheduled" = Except.ok B →
        fetchAll conf.BuildkiteOrgSlug conf.BuildkiteApiAccessToken stateFilter =
          Except.ok (A ++ B) →
        (getBuildStats fetch ρ₂ (getBuildStats fetch ρ₁ res conf "running").1 conf
            "scheduled").1.Counts =
          (getBuildStats fetchAll ρ res conf stateFilter).1.Counts ∧
        (∀ q, (getBuildStats fetch ρ₂ (getBuildStats fetch ρ₁ res conf "running").1 conf
            "scheduled").1.Queues.get q =
          (getBuildStats fetchAll ρ res conf stateFilter).1.Queues.get q) ∧
        (∀ k, k ∈ (getBuildStats fetch ρ₂ (getBuildStats fetch ρ₁ res conf "running").1 conf
            "scheduled").1.Queues.keys ↔
          k ∈ (getBuildStats fetchAll ρ res conf stateFilter).1.Queues.keys)) ∧
      (∀ (fetch : Fetch) (filter₁ filter₂ : String),
        fetch conf.BuildkiteOrgSlug conf.BuildkiteApiAccessToken filter₁ =
          fetch conf.BuildkiteOrgSlug conf.BuildkiteApiAccessToken filter₂ →
        getBuildStats fetch ρ res conf filter₁ = getBuildStats fetch ρ res conf filter₂) := by
  have hloop : aggregate ρ₂ conf (aggregate ρ₁ conf res A) B = aggregate ρ conf res (A ++ B) := by
    rw [aggregate_append, aggregate_order_irrelevant ρ₁ ρ conf res A]
    apply aggregate_order_irrelevant
  refine ⟨hloop, ?_, ?_⟩
  · intro fetch fetchAll stateFilter hA hB hAB
    have h1 := getBuildStats_ok fetch ρ₁ res conf "running" A hA
    have h2 := getBuildStats_ok fetch ρ₂ (getBuildStats fetch ρ₁ res conf "running").1 conf
      "scheduled" B hB
    have h3 := getBuildStats_ok fetchAll ρ res conf stateFilter (A ++ B) hAB
    have hcongr := aggregate_congr ρ₂ ρ₂ conf (getBuildStats fetch ρ₁ res conf "running").1
      (aggregate ρ₁ conf res A) B h1.2.1 h1.2.2.1
    refine ⟨?_, ?_, ?_⟩
    · rw [h2.2.1, h3.2.1, hcongr.1, hloop]
    · intro q
      rw [h2.2.2.1 q, h3.2.2.1 q, hcongr.2 q, hloop]
    · intro k
      rw [getBuildStats_keys fetch ρ₂ _ conf "scheduled" B hB k,
        getBuildStats_keys fetch ρ₁ res conf "running" A hA k,
        getBuildStats_keys fetchAll ρ res conf stateFilter (A ++ B) hAB k]
      have key : ∀ (P T : Prop), ((P ∨ T) ∨ T) ↔ (P ∨ T) := by
        intro P T
        tauto
      exact key _ _
  · intro fetch filter₁ filter₂ h
    unfold getBuildStats
    rw [h]

/-! ## Monotonic accumulation -/

theorem intMin_le_of_nonneg (x : Int) (h : 0 ≤ x) : intMin ≤ x := by
  unfold intMin
  omega

theorem le_ite_incr (p : Prop) [Decidable p] (x : Int) (h1 : intMin ≤ x) (h2 : x < intMax) :
    x ≤ (if p then incr x else x) := by
  split
  · rw [incr_eq x h1 h2]
    omega
  · exact le_refl x

theorem allJobs_append (as bs : List Build) : allJobs (as ++ bs) = allJobs as ++ allJobs bs := by
  unfold allJobs
  rw [List.flatMap_append]

theorem aggregate_after_earlier (ρ₀ ρ : Nat → RangeOrder) (conf : Config) (res : Result)
    (pre builds : List Build) :
    aggregate ρ conf (aggregate ρ₀ conf res pre) builds =
      aggregate ρ₀ conf res (pre ++ builds) := by
  rw [aggregate_append]
  apply aggregate_order_irrelevant

/-- After a prefix of builds processed from a fresh `Result`, no counter is
negative and the loop over further builds lowers none, as long as neither the
builds nor the jobs processed in all outnumber the largest `int`. -/
theorem aggregate_prefix_le (ρ₀ ρ : Nat → RangeOrder) (conf : Config)
    (pre builds : List Build) (hb : ((pre ++ builds).length : Int) ≤ intMax)
    (hj : ((allJobs (pre ++ builds)).length : Int) ≤ intMax) :
    (Counts.zero.le (aggregate ρ₀ conf Result.fresh pre).Counts ∧
      (aggregate ρ₀ conf Result.fresh pre).Counts.le
        (aggregate ρ conf (aggregate ρ₀ conf Result.fresh pre) builds).Counts) ∧
      ∀ q, Counts.zero.le ((aggregate ρ₀ conf Result.fresh pre).Queues.get q) ∧
        ((aggregate ρ₀ conf Result.fresh pre).Queues.get q).le
          ((aggregate ρ conf (aggregate ρ₀ conf Result.fresh pre) builds).Queues.get q) := by
  have hb1 : ((pre.length : Nat) : Int) ≤ intMax := by
    rw [List.length_append] at hb
    push_cast at hb
    omega
  have hj1 : (((allJobs pre).length : Nat) : Int) ≤ intMax := by
    rw [allJobs_append, List.length_append] at hj
    push_cast at hj
    omega
  obtain ⟨⟨p1, p2, p3, p4⟩, pq⟩ := aggregate_fresh_counts ρ₀ conf pre hb1 hj1
  obtain ⟨⟨t1, t2, t3, t4⟩, tq⟩ := aggregate_fresh_counts ρ₀ conf (pre ++ builds) hb hj
  rw [aggregate_after_earlier]
  constructor
  · unfold Counts.le
    rw [p1, p2, p3, p4, t1, t2, t3, t4, allJobs_append]
    simp only [List.countP_append, Nat.cast_add]
    refine ⟨⟨?_, ?_, ?_, ?_⟩, ?_, ?_, ?_, ?_⟩ <;>
      first
        | exact Int.ofNat_nonneg _
        | exact le_add_of_nonneg_right (Int.ofNat_nonneg _)
  · intro q
    by_cases ht : q = "default" ∨ q = conf.Queue
    · obtain ⟨q1, q2, q3, q4⟩ := pq q ht
      obtain ⟨u1, u2, u3, u4⟩ := tq q ht
      unfold Counts.le
      rw [q1, q2, q3, q4, u1, u2, u3, u4, allJobs_append]
      simp only [List.countP_append, Nat.cast_add]
      refine ⟨⟨?_, ?_, ?_, ?_⟩, ?_, ?_, ?_, ?_⟩ <;>
        first
          | exact Int.ofNat_nonneg _
          | exact le_add_of_nonneg_right (Int.ofNat_nonneg _)
    · rw [aggregate_get_untracked ρ₀ conf Result.fresh pre q ht,
        aggregate_get_untracked ρ₀ conf Result.fresh (pre ++ builds) q ht]
      exact ⟨⟨le_refl _, le_refl _, le_refl _, le_refl _⟩,
        le_refl _, le_refl _, le_refl _, le_refl _⟩

/-- C15: the aggregation loop of `getBuildStats` lowers no counter. For every
starting `Result`, list of builds and configuration, each of the four global
counters and each of the four counters read for every queue (an absent key
reading zero) is after the loop at least what it was before, provided that
counter plus the number of increments the loop applies to it does not pass the
largest `int`; a queue other than `"default"` and the configured one is not
written at all, and no key of `Queues` is removed. `addBuild` and `addJob`
lower no counter that is below the largest `int` and leave the other counters
as they are. For the `Result`s the handler passes, the fresh one and the one
left by the first pass, no condition on the counters is needed: they are
non-negative and neither pass lowers any, as long as neither the builds nor
the jobs fetched outnumber the largest `int`. -/
theorem aggregate_monotone (ρ₀ ρ : Nat → RangeOrder) (conf : Config) (res : Result)
    (builds : List Build) :
    ((intMin ≤ res.Counts.RunningBuilds →
        res.Counts.RunningBuilds +
          ((builds.countP (fun b => decide (b.State = "running")) : Nat) : Int) ≤ intMax →
        res.Counts.RunningBuilds ≤ (aggregate ρ conf res builds).Counts.RunningBuilds) ∧
      (intMin ≤ res.Counts.ScheduledBuilds →
        res.Counts.ScheduledBuilds +
          ((builds.countP (fun b => decide (b.State = "scheduled")) : Nat) : Int) ≤ intMax →
        res.Counts.ScheduledBuilds ≤ (aggregate ρ conf res builds).Counts.ScheduledBuilds) ∧
      (intMin ≤ res.Counts.RunningJobs →
        res.Counts.RunningJobs +
          (((allJobs builds).countP (fun j => decide (j.State = "running")) : Nat) : Int) ≤
            intMax →
        res.Counts.RunningJobs ≤ (aggregate ρ conf res builds).Counts.RunningJobs) ∧
      (intMin ≤ res.Counts.ScheduledJobs →
        res.Counts.ScheduledJobs +
          (((allJobs builds).countP (fun j => decide (j.State = "scheduled")) : Nat) : Int) ≤
            intMax →
        res.Counts.ScheduledJobs ≤ (aggregate ρ conf res builds).Counts.ScheduledJobs)) ∧
      (∀ q, q = "default" ∨ q = conf.Queue →
        (intMin ≤ (res.Queues.get q).RunningBuilds →
          (res.Queues.get q).RunningBuilds +
            ((builds.countP
              (fun b => decide (b.State = "running" ∧ ∃ j ∈ b.Jobs, j.Queue = q)) : Nat) : Int) ≤
              intMax →
          (res.Queues.get q).RunningBuilds ≤
            ((aggregate ρ conf res builds).Queues.get q).RunningBuilds) ∧
        (intMin ≤ (res.Queues.get q).ScheduledBuilds →
          (res.Queues.get q).ScheduledBuilds +
            ((builds.countP
              (fun b => decide (b.State = "scheduled" ∧ ∃ j ∈ b.Jobs, j.Queue = q)) :
                Nat) : Int) ≤ intMax →
          (res.Queues.get q).ScheduledBuilds ≤
            ((aggregate ρ conf res builds).Queues.get q).ScheduledBuilds) ∧
        (intMin ≤ (res.Queues.get q).RunningJobs →
          (res.Queues.get q).RunningJobs +
            (((allJobs builds).countP
              (fun j => decide (j.State = "running" ∧ j.Queue = q)) : Nat) : Int) ≤ intMax →
          (res.Queues.get q).RunningJobs ≤
            ((aggregate ρ conf res builds).Queues.get q).RunningJobs) ∧
        (intMin ≤ (res.Queues.get q).ScheduledJobs →
          (res.Queues.get q).ScheduledJobs +
            (((allJobs builds).countP
              (fun j => decide (j.State = "scheduled" ∧ j.Queue = q)) : Nat) : Int) ≤ intMax →
          (res.Queues.get q).ScheduledJobs ≤
            ((aggregate ρ conf res builds).Queues.get q).ScheduledJobs)) ∧
      (∀ q, ¬ (q = "default" ∨ q = conf.Queue) →
        (aggregate ρ conf res builds).Queues.get q = res.Queues.get q) ∧
      (∀ k ∈ res.Queues.keys, k ∈ (aggregate ρ conf res builds).Queues.keys) ∧
      (∀ (c : Counts) (b : Build),
        (intMin ≤ c.RunningBuilds → c.RunningBuilds < intMax →
          c.RunningBuilds ≤ (c.addBuild b).RunningBuilds) ∧
        (intMin ≤ c.ScheduledBuilds → c.ScheduledBuilds < intMax →
          c.ScheduledBuilds ≤ (c.addBuild b).ScheduledBuilds) ∧
        (c.addBuild b).RunningJobs = c.RunningJobs ∧
        (c.addBuild b).ScheduledJobs = c.ScheduledJobs) ∧
      (∀ (c : Counts) (j : Job),
        (intMin ≤ c.RunningJobs → c.RunningJobs < intMax →
          c.RunningJobs ≤ (c.addJob j).RunningJobs) ∧
        (intMin ≤ c.ScheduledJobs → c.ScheduledJobs < intMax →
          c.ScheduledJobs ≤ (c.addJob j).ScheduledJobs) ∧
        (c.addJob j).RunningBuilds = c.RunningBuilds ∧
        (c.addJob j).ScheduledBuilds = c.ScheduledBuilds) ∧
      (∀ pre : List Build, ((pre ++ builds).length : Int) ≤ intMax →
        ((allJobs (pre ++ builds)).length : Int) ≤ intMax →
        (Counts.zero.le (aggregate ρ₀ conf Result.fresh pre).Counts ∧
          (aggregate ρ₀ conf Result.fresh pre).Counts.le
            (aggregate ρ conf (aggregate ρ₀ conf Result.fresh pre) builds).Counts) ∧
        (∀ q, Counts.zero.le ((aggregate ρ₀ conf Result.fresh pre).Queues.get q) ∧
          ((aggregate ρ₀ conf Result.fresh pre).Queues.get q).le
            ((aggregate ρ conf (aggregate ρ₀ conf Result.fresh pre) builds).Queues.get q)) ∧
        ∀ buildkiteBuilds : Fetch,
          buildkiteBuilds conf.BuildkiteOrgSlug conf.BuildkiteApiAccessToken "running" =
            Except.ok pre →
          buildkiteBuilds conf.BuildkiteOrgSlug conf.BuildkiteApiAccessToken "scheduled" =
            Except.ok builds →
          (Result.fresh.Counts.le
              (getBuildStats buildkiteBuilds ρ₀ Result.fresh conf "running").1.Counts ∧
            (getBuildStats buildkiteBuilds ρ₀ Result.fresh conf "running").1.Counts.le
              (getBuildStats buildkiteBuilds ρ
                (getBuildStats buildkiteBuilds ρ₀ Result.fresh conf "running").1 conf
                "scheduled").1.Counts) ∧
          (∀ q, (Result.fresh.Queues.get q).le
              ((getBuildStats buildkiteBuilds ρ₀ Result.fresh conf "running").1.Queues.get q) ∧
            ((getBuildStats buildkiteBuilds ρ₀ Result.fresh conf "running").1.Queues.get q).le
              ((getBuildStats buildkiteBuilds ρ
                (getBuildStats buildkiteBuilds ρ₀ Result.fresh conf "running").1 conf
                "scheduled").1.Queues.get q)) ∧
          ∀ k ∈ (getBuildStats buildkiteBuilds ρ₀ Result.fresh conf "running").1.Queues.keys,
            k ∈ (getBuildStats buildkiteBuilds ρ
              (getBuildStats buildkiteBuilds ρ₀ Result.fresh conf "running").1 conf
              "scheduled").1.Queues.keys) := by
  refine ⟨⟨?_, ?_, ?_, ?_⟩, ?_, ?_, ?_, ?_, ?_, ?_⟩
  · intro h0 h1
    rw [aggregate_Counts_RunningBuilds ρ conf res builds h0 h1]
    omega
  · intro h0 h1
    rw [aggregate_Counts_ScheduledBuilds ρ conf res builds h0 h1]
    omega
  · intro h0 h1
    rw [aggregate_Counts_RunningJobs ρ conf res builds h0 h1]
    omega
  · intro h0 h1
    rw [aggregate_Counts_ScheduledJobs ρ conf res builds h0 h1]
    omega
  · intro q hq
    refine ⟨?_, ?_, ?_, ?_⟩
    · intro h0 h1
      rw [aggregate_get_RunningBuilds ρ conf res builds q hq h0 h1]
      omega
    · intro h0 h1
      rw [aggregate_get_ScheduledBuilds ρ conf res builds q hq h0 h1]
      omega
    · intro h0 h1
      rw [aggregate_get_RunningJobs ρ conf res builds q hq h0 h1]
      omega
    · intro h0 h1
      rw [aggregate_get_ScheduledJobs ρ conf res builds q hq h0 h1]
      omega
  · intro q hq
    exact aggregate_get_untracked ρ conf res builds q hq
  · intro k hk
    rw [aggregate_keys]
    exact Or.inl hk
  · intro c b
    refine ⟨?_, ?_, Counts.addBuild_RunningJobs c b, Counts.addBuild_ScheduledJobs c b⟩
    · intro h0 h1
      rw [Counts.addBuild_RunningBuilds]
      exact le_ite_incr _ _ h0 h1
    · intro h0 h1
      rw [Counts.addBuild_ScheduledBuilds]
      exact le_ite_incr _ _ h0 h1
  · intro c j
    refine ⟨?_, ?_, Counts.addJob_RunningBuilds c j, Counts.addJob_ScheduledBuilds c j⟩
    · intro h0 h1
      rw [Counts.addJob_RunningJobs]
      exact le_ite_incr _ _ h0 h1
    · intro h0 h1
      rw [Counts.addJob_ScheduledJobs]
      exact le_ite_incr _ _ h0 h1
  · intro pre hb hj
    have hpre := aggregate_prefix_le ρ₀ ρ conf pre builds hb hj
    refine ⟨hpre.1, hpre.2, ?_⟩
    intro buildkiteBuilds hr hs
    have h1 := getBuildStats_ok buildkiteBuilds ρ₀ Result.fresh conf "running" pre hr
    have h2 := getBuildStats_ok buildkiteBuilds ρ
      (getBuildStats buildkiteBuilds ρ₀ Result.fresh conf "running").1 conf "scheduled" builds hs
    have hcongr := aggregate_congr ρ ρ conf
      (getBuildStats buildkiteBuilds ρ₀ Result.fresh conf "running").1
      (aggregate ρ₀ conf Result.fresh pre) builds h1.2.1 h1.2.2.1
    refine ⟨?_, ?_, ?_⟩
    · rw [h2.2.1, hcongr.1, h1.2.1]
      exact hpre.1
    · intro q
      rw [h2.2.2.1 q, hcongr.2 q, h1.2.2.1 q]
      exact hpre.2 q
    · intro k hk
      rw [getBuildStats_keys buildkiteBuilds ρ _ conf "scheduled" builds hs k]
      exact Or.inl hk

/-- C15 on an input: from a `Result` whose `RunningBuilds` is 5 and whose
`ScheduledBuilds` is the largest `int`, the loop over a running and a scheduled
build takes `RunningBuilds` to 6, and one `addBuild` does not lower it either;
after the two passes of the handler on the sample fetch no counter is below
its value after the first pass. -/
theorem aggregate_monotone_witness :
    (crowdedResult.Counts.RunningBuilds ≤
        (aggregate (fun _ => RangeOrder.insertion) sampleConf crowdedResult
          [sampleBuild, sampleOtherBuild]).Counts.RunningBuilds ∧
      (aggregate (fun _ => RangeOrder.insertion) sampleConf crowdedResult
        [sampleBuild, sampleOtherBuild]).Counts.RunningBuilds = 6) ∧
      crowdedResult.Counts.RunningBuilds ≤
        (crowdedResult.Counts.addBuild sampleBuild).RunningBuilds ∧
      (getBuildStats sampleFetch (fun _ => RangeOrder.insertion) Result.fresh sampleConf
          "running").1.Counts.le
        (getBuildStats sampleFetch (fun _ => RangeOrder.insertion)
          (getBuildStats sampleFetch (fun _ => RangeOrder.insertion) Result.fresh sampleConf
            "running").1 sampleConf "scheduled").1.Counts :=
  ⟨⟨(aggregate_monotone (fun _ => RangeOrder.insertion) (fun _ => RangeOrder.insertion)
      sampleConf crowdedResult [sampleBuild, sampleOtherBuild]).1.1 (by decide) (by decide),
      by decide⟩,
    ((aggregate_monotone (fun _ => RangeOrder.insertion) (fun _ => RangeOrder.insertion)
      sampleConf crowdedResult [sampleBuild, sampleOtherBuild]).2.2.2.2.1
      crowdedResult.Counts sampleBuild).1 (by decide) (by decide),
    (((aggregate_monotone (fun _ => RangeOrder.insertion) (fun _ => RangeOrder.insertion)
      sampleConf Result.fresh [sampleBuild, sampleOtherBuild]).2.2.2.2.2.2
      [sampleBuild, sampleOtherBuild] (by decide) (by decide)).2.2 sampleFetch rfl rfl).1.2⟩

end CollectMetrics
